import Mathlib

/-!
A shallow embedding of the incremental computation graph ("pipeline") engine
from `pipeline.ts`.  Values held by nodes are modelled as `Nat` (the benchmark
uses small numbers; JavaScript `===` on numbers is value equality).  The
`LinearMap` edge store of the source is modelled faithfully as a list of
optional key/value slots (`none` = tombstone); the size-100 upgrade to a hashed
`Map` is omitted, as it preserves the map semantics the engine relies on.
Weak references never fail to dereference in the model (no garbage collector);
consumer weak handles are identified with the consumer's node id.

Computed nodes carry their `calculate()` body as a small program: a list of
read/write steps followed by a pure combination of the values read.  This
covers the calculate bodies the claims quantify over (reads of dependencies,
possibly interleaved with leaf writes) while keeping the embedding executable.

All engine operations are interpreted by a single fuel-indexed step function,
so that mutual recursion between `checkForActuallyChangedValue`,
`recomputeValue`, polling and notification is total; fuel exhaustion is the
distinguished outcome `Res.out` and is never identified with an engine error.
-/

/-- Tombstoned slot list modelling the `LinearMap` class of the source. -/
abbrev LMap (K V : Type) := List (Option (K × V))

/-- First live slot whose key matches, as in `LinearMap.get`. -/
def LMap.get {K V : Type} [DecidableEq K] : LMap K V → K → Option V
| [], _ => none
| none :: rest, k => LMap.get rest k
| some (k0, v0) :: rest, k => if k0 = k then some v0 else LMap.get rest k

/-- Update the first slot holding the key (used when the key is present). -/
def LMap.setExisting {K V : Type} [DecidableEq K] : LMap K V → K → V → LMap K V
| [], _, _ => []
| none :: rest, k, v => none :: LMap.setExisting rest k v
| some (k0, v0) :: rest, k, v =>
  if k0 = k then some (k0, v) :: rest else some (k0, v0) :: LMap.setExisting rest k v

/-- Fill the first tombstone, else push at the end (used when the key is absent). -/
def LMap.fillFirst {K V : Type} : LMap K V → K → V → LMap K V
| [], k, v => [some (k, v)]
| none :: rest, k, v => some (k, v) :: rest
| s :: rest, k, v => s :: LMap.fillFirst rest k v

/-- `LinearMap.set`: update in place if present, else reuse a tombstone or push. -/
def LMap.set {K V : Type} [DecidableEq K] (m : LMap K V) (k : K) (v : V) : LMap K V :=
  if (LMap.get m k).isSome then LMap.setExisting m k v else LMap.fillFirst m k v

/-- `LinearMap.delete`: tombstone the first slot holding the key. -/
def LMap.delete {K V : Type} [DecidableEq K] : LMap K V → K → LMap K V
| [], _ => []
| none :: rest, k => none :: LMap.delete rest k
| some (k0, v0) :: rest, k =>
  if k0 = k then none :: rest else some (k0, v0) :: LMap.delete rest k

/-- `LinearMap.toTuples`: the live entries, in slot order.  Iteration in the
source (`for ... of`) yields exactly this snapshot. -/
def LMap.toTuples {K V : Type} (m : LMap K V) : List (K × V) := m.filterMap id

/-- Number of live entries; the source maintains this count in its `size` field. -/
def LMap.size {K V : Type} (m : LMap K V) : Nat := (LMap.toTuples m).length

/-- The tri-state cached value of a computed node: the `UNSET` and `COMPUTING`
sentinels of the source, or a real value. -/
inductive CachedVal : Type
| unset
| computing
| val (v : Nat)
deriving DecidableEq

/-- The `stale` field: `false`, `true`, or a remembered notifier producer. -/
inductive StaleFlag : Type
| clean
| dirty
| producer (p : Nat)
deriving DecidableEq

/-- One step of a computed node's `calculate()` body: read a producer's
`value`, or call `setValue` on a leaf. -/
inductive CalcStep : Type
| readStep (n : Nat)
| writeStep (n : Nat) (v : Nat)
deriving DecidableEq

/-- A `calculate()` body: steps to run, then a pure function of the values
collected by the read steps. -/
structure CalcFn : Type where
  steps : List CalcStep
  combine : List Nat → Nat

/-- State of a computed `Pipeline` node. -/
structure PipelineData : Type where
  consumers : LMap Nat Nat
  producers : LMap Nat Nat
  valueVersion : Nat
  trackingVersion : Nat
  stale : StaleFlag
  cached : CachedVal
  calcFn : CalcFn

/-- State of a `ValuePipeline` leaf. -/
structure ValueData : Type where
  consumers : LMap Nat Nat
  valueVersion : Nat
  value : Nat

/-- A node of the graph. -/
inductive Node : Type
| pipeline (d : PipelineData)
| value (d : ValueData)

/-- The whole engine state: the nodes (ids are list indices), the ambient
active-consumer slot, and an instrumentation counter of `calculate()` entries. -/
structure EngineState : Type where
  nodes : List Node
  activeConsumer : Option Nat
  calcCount : Nat

/-- Engine failures: the two thrown errors of the source, a user exception
from a `mutateValue` mutator, and an out-of-model missing-node access. -/
inductive EngErr : Type
| circular
| changedWhileCalculating
| userExn
| badNode
deriving DecidableEq

/-- Outcome of an interpreted engine call: success or error (each with the
resulting state), or fuel exhaustion (a model artifact, never an engine event). -/
inductive Res (α : Type) : Type
| ok (a : α) (s : EngineState)
| err (e : EngErr) (s : EngineState)
| out

def lookupNode (s : EngineState) (i : Nat) : Option Node := s.nodes.get? i

def setNode (s : EngineState) (i : Nat) (n : Node) : EngineState :=
  { s with nodes := s.nodes.set i n }

def modifyPipeline (s : EngineState) (i : Nat) (f : PipelineData → PipelineData) : EngineState :=
  match lookupNode s i with
  | some (Node.pipeline d) => setNode s i (Node.pipeline (f d))
  | _ => s

def modifyValue (s : EngineState) (i : Nat) (f : ValueData → ValueData) : EngineState :=
  match lookupNode s i with
  | some (Node.value d) => setNode s i (Node.value (f d))
  | _ => s

/-- Update the `consumers` map of a producer of either kind. -/
def modifyConsumers (s : EngineState) (i : Nat) (f : LMap Nat Nat → LMap Nat Nat) : EngineState :=
  match lookupNode s i with
  | some (Node.pipeline d) => setNode s i (Node.pipeline { d with consumers := f d.consumers })
  | some (Node.value d) => setNode s i (Node.value { d with consumers := f d.consumers })
  | none => s

/-- `valueVersion` of a producer (0 if the id is not a node; never relied on). -/
def vvOf (s : EngineState) (i : Nat) : Nat :=
  match lookupNode s i with
  | some (Node.pipeline d) => d.valueVersion
  | some (Node.value d) => d.valueVersion
  | none => 0

/-- `trackingVersion` of a consumer, when the id denotes a computed node.
`none` models `consumer?.trackingVersion` being `undefined`. -/
def tvOf? (s : EngineState) (i : Nat) : Option Nat :=
  match lookupNode s i with
  | some (Node.pipeline d) => some d.trackingVersion
  | _ => none

/-- `trackingVersion` with default 0 (only read where the node is computed). -/
def tvOf (s : EngineState) (i : Nat) : Nat := (tvOf? s i).getD 0

def cachedOf? (s : EngineState) (i : Nat) : Option CachedVal :=
  match lookupNode s i with
  | some (Node.pipeline d) => some d.cached
  | _ => none

def staleOf? (s : EngineState) (i : Nat) : Option StaleFlag :=
  match lookupNode s i with
  | some (Node.pipeline d) => some d.stale
  | _ => none

def consumersOf (s : EngineState) (i : Nat) : LMap Nat Nat :=
  match lookupNode s i with
  | some (Node.pipeline d) => d.consumers
  | some (Node.value d) => d.consumers
  | none => []

def producersOf (s : EngineState) (i : Nat) : LMap Nat Nat :=
  match lookupNode s i with
  | some (Node.pipeline d) => d.producers
  | _ => []

/-- `producerAccessed`: when an ambient active consumer exists, record the
bidirectional edge, stamping the consumer's current `trackingVersion` on the
producer side and the producer's current `valueVersion` on the consumer side. -/
def producerAccessed (s : EngineState) (i : Nat) : EngineState :=
  match s.activeConsumer with
  | none => s
  | some c =>
    let s1 := modifyConsumers s i (fun m => LMap.set m c (tvOf s c))
    modifyPipeline s1 c (fun d => { d with producers := LMap.set d.producers i (vvOf s1 i) })

/-- The notifier hint carried by a non-clean stale flag. -/
def staleHint : StaleFlag → Option Nat
| StaleFlag.producer p => some p
| _ => none

/-- The state on which a recomputation runs its `calculate()`: cached value
marked `COMPUTING`, `trackingVersion` incremented, self installed as the
ambient active consumer, and one more `calculate()` entry counted. -/
def recomputeMid (s : EngineState) (i : Nat) : EngineState :=
  let s1 := modifyPipeline s i
    (fun d => { d with cached := CachedVal.computing, trackingVersion := d.trackingVersion + 1 })
  { s1 with activeConsumer := some i, calcCount := s.calcCount + 1 }

def setStaleClean (s : EngineState) (i : Nat) : EngineState :=
  modifyPipeline s i (fun d => { d with stale := StaleFlag.clean })

/-- `this.stale = notifier ?? true` in `Pipeline.notify`. -/
def setStaleTo (s : EngineState) (i : Nat) (fl : StaleFlag) : EngineState :=
  modifyPipeline s i (fun d => { d with stale := fl })

/-- Dead-edge pruning inside `producerNotifyConsumers`: drop the consumer from
the producer's map and the producer from the consumer's map. -/
def prunePncEdge (s : EngineState) (i : Nat) (c : Nat) : EngineState :=
  let s1 := modifyConsumers s i (fun m => LMap.delete m c)
  modifyPipeline s1 c (fun d => { d with producers := LMap.delete d.producers i })

def setCached (s : EngineState) (i : Nat) (c : CachedVal) : EngineState :=
  modifyPipeline s i (fun d => { d with cached := c })

def bumpVV (s : EngineState) (i : Nat) : EngineState :=
  modifyPipeline s i (fun d => { d with valueVersion := d.valueVersion + 1 })

/-- `ValuePipeline.setValue`'s effective branch: store the value and increment
`valueVersion` (notification follows separately). -/
def bumpLeaf (s : EngineState) (i : Nat) (v : Nat) : EngineState :=
  modifyValue s i (fun d => { d with value := v, valueVersion := d.valueVersion + 1 })

/-- Remove a dependency edge from both sides, as in the dead-edge branch of
`consumerPollValueStatus`: from the consumer's `producers` map and from the
producer's `consumers` map. -/
def removeEdge (s : EngineState) (p : Nat) (c : Nat) : EngineState :=
  let s1 := modifyPipeline s c (fun d => { d with producers := LMap.delete d.producers p })
  modifyConsumers s1 p (fun m => LMap.delete m c)

/-- The engine's mutually recursive internal calls. -/
inductive Call : Type
| checkForActuallyChangedValue (i : Nat)
| recomputeValue (i : Nat)
| getValue (i : Nat)
| runCalcSteps (steps : List CalcStep) (acc : List Nat)
| notify (i : Nat) (notifier : Option Nat)
| producerNotifyConsumers (i : Nat)
| pncLoop (i : Nat) (entries : List (Nat × Nat))
| consumerPollValueStatus (c : Nat) (notifier : Option Nat)
| pollLoop (c : Nat) (skip : Option Nat) (entries : List (Nat × Nat))
| producerPollStatus (p : Nat) (lastSeen : Option Nat)
| setValue (i : Nat) (v : Nat)

/-- Result type of each internal call. -/
abbrev Call.ret : Call → Type
| Call.getValue _ => Nat
| Call.runCalcSteps _ _ => List Nat
| Call.consumerPollValueStatus _ _ => Bool
| Call.pollLoop _ _ _ => Bool
| Call.producerPollStatus _ _ => Bool
| _ => Unit

/-- The fuel-indexed interpreter of the engine, one branch per function of the
source.  Every recursive call spends one unit of fuel. -/
def step : (c : Call) → Nat → EngineState → Res c.ret
| _, 0, _ => Res.out
| Call.getValue i, fuel + 1, s =>
  -- `Pipeline.value` / `ValuePipeline.value` accessors.
  match lookupNode s i with
  | some (Node.value d) => Res.ok d.value (producerAccessed s i)
  | some (Node.pipeline _) =>
    match step (Call.checkForActuallyChangedValue i) fuel s with
    | Res.ok _ s1 =>
      let s2 := producerAccessed s1 i
      match cachedOf? s2 i with
      | some (CachedVal.val v) => Res.ok v s2
      -- the source would return the sentinel symbol here; modelled as 0
      -- (unreachable from the states the theorems below start from)
      | _ => Res.ok 0 s2
    | Res.err e s1 => Res.err e s1
    | Res.out => Res.out
  | none => Res.err EngErr.badNode s
| Call.checkForActuallyChangedValue i, fuel + 1, s =>
  match lookupNode s i with
  | some (Node.pipeline d) =>
    match d.stale with
    | StaleFlag.clean => Res.ok () s
    | st =>
      match d.cached with
      | CachedVal.val _ =>
        match step (Call.consumerPollValueStatus i (staleHint st)) fuel s with
        | Res.ok true s1 => step (Call.recomputeValue i) fuel s1
        | Res.ok false s1 => Res.ok () (setStaleClean s1 i)
        | Res.err e s1 => Res.err e s1
        | Res.out => Res.out
      | _ => step (Call.recomputeValue i) fuel s
  | _ => Res.ok () s
| Call.recomputeValue i, fuel + 1, s =>
  match lookupNode s i with
  | some (Node.pipeline d) =>
    if d.cached = CachedVal.computing then Res.err EngErr.circular s
    else
      match step (Call.runCalcSteps d.calcFn.steps []) fuel (recomputeMid s i) with
      | Res.err e s3 => Res.err e { s3 with activeConsumer := s.activeConsumer }
      | Res.out => Res.out
      | Res.ok vals s3 =>
        let s4 := { s3 with activeConsumer := s.activeConsumer }
        let newValue := d.calcFn.combine vals
        let s5 := setStaleClean s4 i
        if d.cached = CachedVal.val newValue then Res.ok () (setCached s5 i d.cached)
        else Res.ok () (bumpVV (setCached s5 i (CachedVal.val newValue)) i)
  | _ => Res.err EngErr.badNode s
| Call.runCalcSteps steps acc, fuel + 1, s =>
  match steps with
  | [] => Res.ok acc s
  | CalcStep.readStep n :: rest =>
    match step (Call.getValue n) fuel s with
    | Res.ok v s1 => step (Call.runCalcSteps rest (acc ++ [v])) fuel s1
    | Res.err e s1 => Res.err e s1
    | Res.out => Res.out
  | CalcStep.writeStep n v :: rest =>
    match step (Call.setValue n v) fuel s with
    | Res.ok _ s1 => step (Call.runCalcSteps rest acc) fuel s1
    | Res.err e s1 => Res.err e s1
    | Res.out => Res.out
| Call.notify i notifier, fuel + 1, s =>
  match lookupNode s i with
  | some (Node.pipeline d) =>
    match d.stale with
    | StaleFlag.clean =>
      if d.cached = CachedVal.computing then Res.err EngErr.changedWhileCalculating s
      else
        let s1 := setStaleTo s i
          (match notifier with
          | some p => StaleFlag.producer p
          | none => StaleFlag.dirty)
        step (Call.producerNotifyConsumers i) fuel s1
    | _ => Res.ok () s
  | _ => Res.err EngErr.badNode s
| Call.producerNotifyConsumers i, fuel + 1, s =>
  step (Call.pncLoop i (LMap.toTuples (consumersOf s i))) fuel s
| Call.pncLoop i entries, fuel + 1, s =>
  match entries with
  | [] => Res.ok () s
  | (c, tvRec) :: rest =>
    match tvOf? s c with
    | some tvc =>
      if tvc = tvRec then
        match step (Call.notify c (some i)) fuel s with
        | Res.ok _ s1 => step (Call.pncLoop i rest) fuel s1
        | Res.err e s1 => Res.err e s1
        | Res.out => Res.out
      else step (Call.pncLoop i rest) fuel (prunePncEdge s i c)
    | none => step (Call.pncLoop i rest) fuel (prunePncEdge s i c)
| Call.consumerPollValueStatus c notifier, fuel + 1, s =>
  match lookupNode s c with
  | some (Node.pipeline d) =>
    match notifier with
    | some p =>
      if LMap.get (consumersOf s p) c = some d.trackingVersion then
        match step (Call.producerPollStatus p (LMap.get d.producers p)) fuel s with
        | Res.ok true s1 => Res.ok true s1
        | Res.ok false s1 =>
          if LMap.size (producersOf s1 c) = 1 then Res.ok false s1
          else step (Call.pollLoop c (some p) (LMap.toTuples (producersOf s1 c))) fuel s1
        | Res.err e s1 => Res.err e s1
        | Res.out => Res.out
      else
        if LMap.size (producersOf s c) = 1 then Res.ok false s
        else step (Call.pollLoop c (some p) (LMap.toTuples (producersOf s c))) fuel s
    | none => step (Call.pollLoop c none (LMap.toTuples (producersOf s c))) fuel s
  | _ => Res.err EngErr.badNode s
| Call.pollLoop c skip entries, fuel + 1, s =>
  match entries with
  | [] => Res.ok false s
  | (p, w) :: rest =>
    if skip = some p then step (Call.pollLoop c skip rest) fuel s
    else
      if LMap.get (consumersOf s p) c = some (tvOf s c) then
        match step (Call.producerPollStatus p (some w)) fuel s with
        | Res.ok true s1 => Res.ok true s1
        | Res.ok false s1 => step (Call.pollLoop c skip rest) fuel s1
        | Res.err e s1 => Res.err e s1
        | Res.out => Res.out
      else step (Call.pollLoop c skip rest) fuel (removeEdge s p c)
| Call.producerPollStatus p lastSeen, fuel + 1, s =>
  match lookupNode s p with
  | none => Res.err EngErr.badNode s
  | some _ =>
    if some (vvOf s p) ≠ lastSeen then Res.ok true s
    else
      match step (Call.checkForActuallyChangedValue p) fuel s with
      | Res.ok _ s1 => Res.ok (decide (some (vvOf s1 p) ≠ lastSeen)) s1
      | Res.err e s1 => Res.err e s1
      | Res.out => Res.out
| Call.setValue i v, fuel + 1, s =>
  match lookupNode s i with
  | some (Node.value d) =>
    if v = d.value then Res.ok () s
    else step (Call.producerNotifyConsumers i) fuel (bumpLeaf s i v)
  | _ => Res.err EngErr.badNode s

/-- `ValuePipeline.mutateValue`: run the mutator (modelled as returning the
post-mutation value, or throwing with a possibly partially mutated value),
then unconditionally bump `valueVersion` and notify. -/
def mutateValue (i : Nat) (m : Nat → Except Nat Nat) (fuel : Nat) (s : EngineState) : Res Unit :=
  match lookupNode s i with
  | some (Node.value d) =>
    match m d.value with
    | Except.error v1 => Res.err EngErr.userExn (modifyValue s i (fun d0 => { d0 with value := v1 }))
    | Except.ok v1 =>
      step (Call.producerNotifyConsumers i) fuel
        (modifyValue s i (fun d0 => { d0 with value := v1, valueVersion := d0.valueVersion + 1 }))
  | _ => Res.err EngErr.badNode s

/-- `ValuePipeline.updateValue`: `setValue (updater currentValue)`. -/
def updateValue (i : Nat) (f : Nat → Nat) (fuel : Nat) (s : EngineState) : Res Unit :=
  match lookupNode s i with
  | some (Node.value d) => step (Call.setValue i (f d.value)) fuel s
  | _ => Res.err EngErr.badNode s

/-- A top-level engine operation. -/
inductive Op : Type
| read (n : Nat)
| set (n : Nat) (v : Nat)
| update (n : Nat) (f : Nat → Nat)
| mutate (n : Nat) (m : Nat → Except Nat Nat)

/-- The state a result leaves behind (the input state if fuel ran out). -/
def stateOf {α : Type} : Res α → EngineState → EngineState
| Res.ok _ s1, _ => s1
| Res.err _ s1, _ => s1
| Res.out, s => s

def applyOp (fuel : Nat) (s : EngineState) : Op → EngineState
| Op.read n => stateOf (step (Call.getValue n) fuel s) s
| Op.set n v => stateOf (step (Call.setValue n v) fuel s) s
| Op.update n f => stateOf (updateValue n f fuel s) s
| Op.mutate n m => stateOf (mutateValue n m fuel s) s

def applyOps (fuel : Nat) (ops : List Op) (s : EngineState) : EngineState :=
  ops.foldl (applyOp fuel) s

/-- The value returned by a read, if it completed successfully. -/
def readVal (n : Nat) (fuel : Nat) (s : EngineState) : Option Nat :=
  match step (Call.getValue n) fuel s with
  | Res.ok v _ => some v
  | _ => none

/-- A graph description: each entry is a leaf with its initial value, or a
computed node with its dependency list and combination function (the
`MiddlePipe` shape of the benchmark: read every dependency, then combine). -/
inductive GNode : Type
| leaf (init : Nat)
| node (deps : List Nat) (f : List Nat → Nat)

/-- A freshly constructed node: versions start at 1, the cached value is
`UNSET`, the stale flag is `true`, and the edge maps are empty. -/
def buildNode : GNode → Node
| GNode.leaf v => Node.value ⟨[], 1, v⟩
| GNode.node deps f =>
  Node.pipeline ⟨[], [], 1, 1, StaleFlag.dirty, CachedVal.unset, ⟨deps.map CalcStep.readStep, f⟩⟩

/-- A freshly constructed graph. -/
def buildGraph (g : List GNode) : EngineState := ⟨g.map buildNode, none, 0⟩

/-- The dependency ids read by a calculate body (targets of its read steps). -/
def readTargets (steps : List CalcStep) : List Nat :=
  steps.filterMap (fun st =>
    match st with
    | CalcStep.readStep n => some n
    | CalcStep.writeStep _ _ => none)

/-- Fueled denotational value of a node: what a from-scratch evaluation of the
graph yields at the current leaf values.  Stable in the fuel beyond the node's
depth when dependencies strictly decrease. -/
def denoteF (s : EngineState) : Nat → Nat → Nat
| 0, _ => 0
| fuel + 1, i =>
  match lookupNode s i with
  | some (Node.value d) => d.value
  | some (Node.pipeline d) => d.calcFn.combine ((readTargets d.calcFn.steps).map (denoteF s fuel))
  | none => 0

/-- Denotational value of a node in a graph whose dependencies strictly
decrease (`d < i` for every dependency `d` of node `i`). -/
def denote (s : EngineState) (i : Nat) : Nat := denoteF s (i + 1) i

/-! ### Basic state-accessor lemmas -/

def Evo (s s1 : EngineState) : Prop :=
  s1.activeConsumer = s.activeConsumer ∧
  (∀ j, vvOf s j ≤ vvOf s1 j ∧ tvOf s j ≤ tvOf s1 j) ∧
  (∀ j, cachedOf? s j = some CachedVal.computing →
    cachedOf? s1 j = some CachedVal.computing ∧ vvOf s1 j = vvOf s j ∧ tvOf s1 j = tvOf s j)

/-- Evolution, lifted to call results: fuel exhaustion evolves trivially. -/
def ResEvo {α : Type} (s : EngineState) : Res α → Prop
| Res.ok _ s1 => Evo s s1
| Res.err _ s1 => Evo s s1
| Res.out => True

/-- The value stored in a leaf node. -/
def leafValOf (s : EngineState) (i : Nat) : Option Nat :=
  match lookupNode s i with
  | some (Node.value d) => some d.value
  | _ => none

/-- A two-node state for the C3 witness: node 0 a leaf, node 1 a computed
node whose cached value 4 is also what its calculate returns. -/
def c3s : EngineState :=
  ⟨[Node.value ⟨[], 1, 4⟩,
    Node.pipeline ⟨[], [], 2, 1, StaleFlag.dirty, CachedVal.val 4, ⟨[], fun _ => 4⟩⟩], none, 0⟩

/-- The graph for the C6 counterexample: node 0 a leaf holding 5, node 1 a
computed node whose calculate reads the leaf and then writes 7 into it (so
the leaf's notification reaches node 1 while node 1 is in the `COMPUTING`
state). -/
def c6s : EngineState :=
  ⟨[Node.value ⟨[], 1, 5⟩,
    Node.pipeline ⟨[], [], 1, 1, StaleFlag.dirty, CachedVal.unset,
      ⟨[CalcStep.readStep 0, CalcStep.writeStep 0 7], fun l => l.headD 0⟩⟩], none, 0⟩

/-- The state mid-way through reading node 1 of `c6s`, after its calculate
has read the leaf and before it writes it: node 1 is `COMPUTING`. -/
def c6mid : EngineState :=
  ⟨[Node.value ⟨[some (1, 2)], 1, 5⟩,
    Node.pipeline ⟨[], [some (0, 1)], 1, 2, StaleFlag.dirty, CachedVal.computing,
      ⟨[CalcStep.readStep 0, CalcStep.writeStep 0 7], fun l => l.headD 0⟩⟩], some 1, 1⟩

/-- A concrete dead edge for the C8 witness: the leaf's consumers map
remembers tracking version 5 for consumer 1, whose current version is 7. -/
def c8s : EngineState :=
  ⟨[Node.value ⟨[some (1, 5)], 3, 9⟩,
    Node.pipeline ⟨[], [some (0, 1)], 1, 7, StaleFlag.dirty, CachedVal.val 0, ⟨[], fun _ => 0⟩⟩],
   none, 0⟩

/-- The value a computed node's read returns from its post-check state. -/
def readResult (s : EngineState) (n : Nat) : Nat :=
  match cachedOf? s n with
  | some (CachedVal.val w) => w
  | _ => 0

/-- Sum modulo 2, the benchmark's `MiddlePipe` combination. -/
def sumMod2 (l : List Nat) : Nat := (l.foldl (fun a b => a + b) 0) % 2

/-- The S2 graph: two leaves holding 0 and a computed node summing them mod 2. -/
def c7g : List GNode := [GNode.leaf 0, GNode.leaf 0, GNode.node [0, 1] sumMod2]

/-- State after the first read of node 2. -/
def c7s1 : EngineState := stateOf (step (Call.getValue 2) 40 (buildGraph c7g)) (buildGraph c7g)

/-- State after setting leaf 0 to 1 and back to 0: the leaf values are again
exactly what they were at the first read. -/
def c7s3 : EngineState := applyOps 10 [Op.set 0 1, Op.set 0 0] c7s1

/-- The mutual-cycle graph for the C2 witness: nodes 0 and 1 read each other,
node 2 is a leaf holding 7. -/
def c2s : EngineState :=
  ⟨[Node.pipeline ⟨[], [], 1, 1, StaleFlag.dirty, CachedVal.unset, ⟨[CalcStep.readStep 1], sumMod2⟩⟩,
    Node.pipeline ⟨[], [], 1, 1, StaleFlag.dirty, CachedVal.unset, ⟨[CalcStep.readStep 0], sumMod2⟩⟩,
    Node.value ⟨[], 1, 7⟩], none, 0⟩

/-- The observable shape of a node: a leaf's current value, or a computed
node's calculate body.  Two states with the same shape everywhere denote the
same from-scratch values. -/
def nodeShape : Option Node → Option (Sum Nat CalcFn)
| some (Node.value d) => some (Sum.inl d.value)
| some (Node.pipeline d) => some (Sum.inr d.calcFn)
| none => none

/-- Structural well-formedness of the live state: every computed node's
calculate body only reads, and reads strictly smaller node ids that exist.
This is the benchmark's `MiddlePipe` layering (`pipes[i]` only reads
`pipes[j]` for `j < i`). -/
def GraphShape (s : EngineState) : Prop :=
  ∀ i d, lookupNode s i = some (Node.pipeline d) →
    (∀ st ∈ d.calcFn.steps, ∃ n, st = CalcStep.readStep n) ∧
    (∀ x ∈ readTargets d.calcFn.steps, x < i ∧ nodeShape (lookupNode s x) ≠ none)

/-- The caching invariant of a consistent state: a clean computed node caches
exactly its denotational value, and a non-clean one holds no real cache. -/
def CacheOK (s : EngineState) : Prop :=
  ∀ i d, lookupNode s i = some (Node.pipeline d) →
    (d.stale = StaleFlag.clean → d.cached = CachedVal.val (denote s i)) ∧
    (d.stale ≠ StaleFlag.clean → d.cached = CachedVal.unset ∨ d.cached = CachedVal.computing)

/-- Precondition of a read of a node below bound `k`: well-shaped graph,
consistent caches, and no node below `k` currently recomputing. -/
def ReadPre (s : EngineState) (k : Nat) : Prop :=
  GraphShape s ∧ CacheOK s ∧ ∀ j, j < k → cachedOf? s j ≠ some CachedVal.computing

/-- Postcondition of a read: shapes (hence denotations) unchanged, caches
still consistent, and the set of `COMPUTING` nodes unchanged. -/
def ReadPost (s s1 : EngineState) : Prop :=
  (∀ j, nodeShape (lookupNode s1 j) = nodeShape (lookupNode s j)) ∧
  CacheOK s1 ∧
  (∀ j, cachedOf? s1 j = some CachedVal.computing ↔ cachedOf? s j = some CachedVal.computing)

/-- A calculate body's remaining steps, during a recomputation of node `i`:
pure reads of existing nodes strictly below `i`. -/
def StepsOK (s : EngineState) (i : Nat) (steps : List CalcStep) : Prop :=
  ∀ st ∈ steps, ∃ n, st = CalcStep.readStep n ∧ n < i ∧ nodeShape (lookupNode s n) ≠ none

/-- A state in which no read has happened yet: quiescent, every computed node
is fresh (`stale = true`, cache `UNSET`) and no leaf has consumers. -/
def QuasiFresh (s : EngineState) : Prop :=
  s.activeConsumer = none ∧
  (∀ i d, lookupNode s i = some (Node.pipeline d) →
    d.stale = StaleFlag.dirty ∧ d.cached = CachedVal.unset) ∧
  (∀ i d, lookupNode s i = some (Node.value d) → d.consumers = [])

/-- A graph description is a DAG in the benchmark's layered sense: computed
entries only depend on strictly earlier entries. -/
def GraphWF (G : List GNode) : Prop :=
  ∀ i deps f, G.get? i = some (GNode.node deps f) → ∀ x ∈ deps, x < i

/-- Apply a sequence of `setValue` writes. -/
def applySets (sets : List (Nat × Nat)) (fuel : Nat) (s : EngineState) : EngineState :=
  applyOps fuel (sets.map (fun p => Op.set p.1 p.2)) s

theorem lookupNode_setNode_ne (s : EngineState) (i j : Nat) (n : Node) (h : j ≠ i) :
    lookupNode (setNode s i n) j = lookupNode s j := by
  simp only [lookupNode, setNode]
  exact List.get?_set_ne n s.nodes h.symm

theorem lookupNode_setNode_self (s : EngineState) (i : Nat) (n n0 : Node)
    (h : lookupNode s i = some n0) : lookupNode (setNode s i n) i = some n := by
  have hl : i < s.nodes.length := by
    by_contra hge
    have := List.get?_eq_none.2 (Nat.le_of_not_lt hge)
    rw [lookupNode] at h
    rw [this] at h
    exact Option.noConfusion h
  simp only [lookupNode, setNode]
  exact List.get?_set_eq_of_lt n hl

theorem activeConsumer_setNode (s : EngineState) (i : Nat) (n : Node) :
    (setNode s i n).activeConsumer = s.activeConsumer := rfl

theorem calcCount_setNode (s : EngineState) (i : Nat) (n : Node) :
    (setNode s i n).calcCount = s.calcCount := rfl

theorem lookupNode_modifyPipeline_ne (s : EngineState) (i j : Nat)
    (f : PipelineData → PipelineData) (h : j ≠ i) :
    lookupNode (modifyPipeline s i f) j = lookupNode s j := by
  unfold modifyPipeline
  cases hl : lookupNode s i with
  | none => rfl
  | some n =>
    cases n with
    | pipeline d => exact lookupNode_setNode_ne s i j _ h
    | value d => rfl

theorem lookupNode_modifyPipeline_self (s : EngineState) (i : Nat)
    (f : PipelineData → PipelineData) (d : PipelineData)
    (h : lookupNode s i = some (Node.pipeline d)) :
    lookupNode (modifyPipeline s i f) i = some (Node.pipeline (f d)) := by
  unfold modifyPipeline
  rw [h]
  exact lookupNode_setNode_self s i _ _ h

theorem lookupNode_modifyPipeline_value (s : EngineState) (i : Nat)
    (f : PipelineData → PipelineData) (d : ValueData)
    (h : lookupNode s i = some (Node.value d)) :
    lookupNode (modifyPipeline s i f) i = some (Node.value d) := by
  unfold modifyPipeline
  rw [h]
  exact h

theorem lookupNode_modifyValue_ne (s : EngineState) (i j : Nat)
    (f : ValueData → ValueData) (h : j ≠ i) :
    lookupNode (modifyValue s i f) j = lookupNode s j := by
  unfold modifyValue
  cases hl : lookupNode s i with
  | none => rfl
  | some n =>
    cases n with
    | pipeline d => rfl
    | value d => exact lookupNode_setNode_ne s i j _ h

theorem lookupNode_modifyValue_self (s : EngineState) (i : Nat)
    (f : ValueData → ValueData) (d : ValueData)
    (h : lookupNode s i = some (Node.value d)) :
    lookupNode (modifyValue s i f) i = some (Node.value (f d)) := by
  unfold modifyValue
  rw [h]
  exact lookupNode_setNode_self s i _ _ h

theorem lookupNode_modifyConsumers_ne (s : EngineState) (i j : Nat)
    (f : LMap Nat Nat → LMap Nat Nat) (h : j ≠ i) :
    lookupNode (modifyConsumers s i f) j = lookupNode s j := by
  unfold modifyConsumers
  cases hl : lookupNode s i with
  | none => rfl
  | some n =>
    cases n with
    | pipeline d => exact lookupNode_setNode_ne s i j _ h
    | value d => exact lookupNode_setNode_ne s i j _ h

theorem activeConsumer_modifyPipeline (s : EngineState) (i : Nat)
    (f : PipelineData → PipelineData) :
    (modifyPipeline s i f).activeConsumer = s.activeConsumer := by
  unfold modifyPipeline
  cases lookupNode s i with
  | none => rfl
  | some n => cases n with
    | pipeline d => rfl
    | value d => rfl

theorem activeConsumer_modifyValue (s : EngineState) (i : Nat)
    (f : ValueData → ValueData) :
    (modifyValue s i f).activeConsumer = s.activeConsumer := by
  unfold modifyValue
  cases lookupNode s i with
  | none => rfl
  | some n => cases n with
    | pipeline d => rfl
    | value d => rfl

theorem activeConsumer_modifyConsumers (s : EngineState) (i : Nat)
    (f : LMap Nat Nat → LMap Nat Nat) :
    (modifyConsumers s i f).activeConsumer = s.activeConsumer := by
  unfold modifyConsumers
  cases lookupNode s i with
  | none => rfl
  | some n => cases n with
    | pipeline d => rfl
    | value d => rfl

theorem calcCount_modifyPipeline (s : EngineState) (i : Nat)
    (f : PipelineData → PipelineData) :
    (modifyPipeline s i f).calcCount = s.calcCount := by
  unfold modifyPipeline
  cases lookupNode s i with
  | none => rfl
  | some n => cases n with
    | pipeline d => rfl
    | value d => rfl

theorem calcCount_modifyValue (s : EngineState) (i : Nat)
    (f : ValueData → ValueData) :
    (modifyValue s i f).calcCount = s.calcCount := by
  unfold modifyValue
  cases lookupNode s i with
  | none => rfl
  | some n => cases n with
    | pipeline d => rfl
    | value d => rfl

theorem calcCount_modifyConsumers (s : EngineState) (i : Nat)
    (f : LMap Nat Nat → LMap Nat Nat) :
    (modifyConsumers s i f).calcCount = s.calcCount := by
  unfold modifyConsumers
  cases lookupNode s i with
  | none => rfl
  | some n => cases n with
    | pipeline d => rfl
    | value d => rfl

theorem vvOf_congr {s1 s2 : EngineState} {j : Nat}
    (h : lookupNode s1 j = lookupNode s2 j) : vvOf s1 j = vvOf s2 j := by
  unfold vvOf
  rw [h]

theorem tvOf?_congr {s1 s2 : EngineState} {j : Nat}
    (h : lookupNode s1 j = lookupNode s2 j) : tvOf? s1 j = tvOf? s2 j := by
  unfold tvOf?
  rw [h]

theorem tvOf_congr {s1 s2 : EngineState} {j : Nat}
    (h : lookupNode s1 j = lookupNode s2 j) : tvOf s1 j = tvOf s2 j := by
  unfold tvOf
  rw [tvOf?_congr h]

theorem cachedOf?_congr {s1 s2 : EngineState} {j : Nat}
    (h : lookupNode s1 j = lookupNode s2 j) : cachedOf? s1 j = cachedOf? s2 j := by
  unfold cachedOf?
  rw [h]

theorem staleOf?_congr {s1 s2 : EngineState} {j : Nat}
    (h : lookupNode s1 j = lookupNode s2 j) : staleOf? s1 j = staleOf? s2 j := by
  unfold staleOf?
  rw [h]

theorem consumersOf_congr {s1 s2 : EngineState} {j : Nat}
    (h : lookupNode s1 j = lookupNode s2 j) : consumersOf s1 j = consumersOf s2 j := by
  unfold consumersOf
  rw [h]

theorem producersOf_congr {s1 s2 : EngineState} {j : Nat}
    (h : lookupNode s1 j = lookupNode s2 j) : producersOf s1 j = producersOf s2 j := by
  unfold producersOf
  rw [h]

/-! ### State evolution: what every engine call preserves

`Evo s s1` collects the facts that hold between the entry and exit state of
every interpreted call, on both the success and the error path: the ambient
active-consumer slot is restored, versions never decrease, and a node whose
cached value is the `COMPUTING` sentinel at entry still has it at exit with
its two versions untouched (only its own `recomputeValue` could change them,
and that immediately fails with the circularity error). -/
theorem Evo.refl (s : EngineState) : Evo s s := by
  refine ⟨rfl, fun j => ⟨le_refl _, le_refl _⟩, fun j h => ⟨h, rfl, rfl⟩⟩

theorem Evo.trans {s1 s2 s3 : EngineState} (h1 : Evo s1 s2) (h2 : Evo s2 s3) : Evo s1 s3 := by
  obtain ⟨a1, m1, f1⟩ := h1
  obtain ⟨a2, m2, f2⟩ := h2
  refine ⟨a2.trans a1, fun j => ⟨(m1 j).1.trans (m2 j).1, (m1 j).2.trans (m2 j).2⟩, fun j h => ?_⟩
  obtain ⟨hc, hv, ht⟩ := f1 j h
  obtain ⟨hc2, hv2, ht2⟩ := f2 j hc
  exact ⟨hc2, hv2.trans hv, ht2.trans ht⟩

/-- A transition that leaves every node's lookup unchanged except for fields
outside `Evo`'s scope, and the scalar state fields, evolves trivially. -/
theorem evo_of_lookup_fields {s s1 : EngineState}
    (ha : s1.activeConsumer = s.activeConsumer)
    (hv : ∀ j, vvOf s1 j = vvOf s j)
    (ht : ∀ j, tvOf s1 j = tvOf s j)
    (hc : ∀ j, cachedOf? s1 j = cachedOf? s j) : Evo s s1 := by
  refine ⟨ha, fun j => ⟨le_of_eq (hv j).symm, le_of_eq (ht j).symm⟩, fun j h => ?_⟩
  exact ⟨(hc j).trans h, hv j, ht j⟩

theorem modifyPipeline_none {s : EngineState} {i : Nat} (f : PipelineData → PipelineData)
    (h : lookupNode s i = none) : modifyPipeline s i f = s := by
  unfold modifyPipeline
  rw [h]

theorem modifyPipeline_value {s : EngineState} {i : Nat} (f : PipelineData → PipelineData)
    {d : ValueData} (h : lookupNode s i = some (Node.value d)) : modifyPipeline s i f = s := by
  unfold modifyPipeline
  rw [h]

theorem modifyValue_none {s : EngineState} {i : Nat} (f : ValueData → ValueData)
    (h : lookupNode s i = none) : modifyValue s i f = s := by
  unfold modifyValue
  rw [h]

theorem modifyValue_pipeline {s : EngineState} {i : Nat} (f : ValueData → ValueData)
    {d : PipelineData} (h : lookupNode s i = some (Node.pipeline d)) : modifyValue s i f = s := by
  unfold modifyValue
  rw [h]

theorem modifyConsumers_none {s : EngineState} {i : Nat} (f : LMap Nat Nat → LMap Nat Nat)
    (h : lookupNode s i = none) : modifyConsumers s i f = s := by
  unfold modifyConsumers
  rw [h]

theorem lookupNode_modifyConsumers_pipeline {s : EngineState} {i : Nat}
    (f : LMap Nat Nat → LMap Nat Nat) {d : PipelineData}
    (h : lookupNode s i = some (Node.pipeline d)) :
    lookupNode (modifyConsumers s i f) i = some (Node.pipeline { d with consumers := f d.consumers }) := by
  unfold modifyConsumers
  rw [h]
  exact lookupNode_setNode_self s i _ _ h

theorem lookupNode_modifyConsumers_value {s : EngineState} {i : Nat}
    (f : LMap Nat Nat → LMap Nat Nat) {d : ValueData}
    (h : lookupNode s i = some (Node.value d)) :
    lookupNode (modifyConsumers s i f) i = some (Node.value { d with consumers := f d.consumers }) := by
  unfold modifyConsumers
  rw [h]
  exact lookupNode_setNode_self s i _ _ h

theorem vvOf_modifyPipeline {s : EngineState} {i : Nat} (f : PipelineData → PipelineData)
    (h : ∀ d, (f d).valueVersion = d.valueVersion) (j : Nat) :
    vvOf (modifyPipeline s i f) j = vvOf s j := by
  rcases eq_or_ne j i with rfl | hne
  · cases hl : lookupNode s j with
    | none => rw [modifyPipeline_none f hl]
    | some n =>
      cases n with
      | value d => rw [modifyPipeline_value f hl]
      | pipeline d =>
        unfold vvOf
        rw [lookupNode_modifyPipeline_self s j f d hl, hl]
        exact h d
  · exact vvOf_congr (lookupNode_modifyPipeline_ne s i j f hne)

theorem tvOf?_modifyPipeline {s : EngineState} {i : Nat} (f : PipelineData → PipelineData)
    (h : ∀ d, (f d).trackingVersion = d.trackingVersion) (j : Nat) :
    tvOf? (modifyPipeline s i f) j = tvOf? s j := by
  rcases eq_or_ne j i with rfl | hne
  · cases hl : lookupNode s j with
    | none => rw [modifyPipeline_none f hl]
    | some n =>
      cases n with
      | value d => rw [modifyPipeline_value f hl]
      | pipeline d =>
        unfold tvOf?
        rw [lookupNode_modifyPipeline_self s j f d hl, hl]
        simp [h d]
  · exact tvOf?_congr (lookupNode_modifyPipeline_ne s i j f hne)

theorem tvOf_modifyPipeline {s : EngineState} {i : Nat} (f : PipelineData → PipelineData)
    (h : ∀ d, (f d).trackingVersion = d.trackingVersion) (j : Nat) :
    tvOf (modifyPipeline s i f) j = tvOf s j := by
  unfold tvOf
  rw [tvOf?_modifyPipeline f h j]

theorem cachedOf?_modifyPipeline {s : EngineState} {i : Nat} (f : PipelineData → PipelineData)
    (h : ∀ d, (f d).cached = d.cached) (j : Nat) :
    cachedOf? (modifyPipeline s i f) j = cachedOf? s j := by
  rcases eq_or_ne j i with rfl | hne
  · cases hl : lookupNode s j with
    | none => rw [modifyPipeline_none f hl]
    | some n =>
      cases n with
      | value d => rw [modifyPipeline_value f hl]
      | pipeline d =>
        unfold cachedOf?
        rw [lookupNode_modifyPipeline_self s j f d hl, hl]
        simp [h d]
  · exact cachedOf?_congr (lookupNode_modifyPipeline_ne s i j f hne)

theorem staleOf?_modifyPipeline {s : EngineState} {i : Nat} (f : PipelineData → PipelineData)
    (h : ∀ d, (f d).stale = d.stale) (j : Nat) :
    staleOf? (modifyPipeline s i f) j = staleOf? s j := by
  rcases eq_or_ne j i with rfl | hne
  · cases hl : lookupNode s j with
    | none => rw [modifyPipeline_none f hl]
    | some n =>
      cases n with
      | value d => rw [modifyPipeline_value f hl]
      | pipeline d =>
        unfold staleOf?
        rw [lookupNode_modifyPipeline_self s j f d hl, hl]
        simp [h d]
  · exact staleOf?_congr (lookupNode_modifyPipeline_ne s i j f hne)

theorem vvOf_modifyValue {s : EngineState} {i : Nat} (f : ValueData → ValueData)
    (h : ∀ d, (f d).valueVersion = d.valueVersion) (j : Nat) :
    vvOf (modifyValue s i f) j = vvOf s j := by
  rcases eq_or_ne j i with rfl | hne
  · cases hl : lookupNode s j with
    | none => rw [modifyValue_none f hl]
    | some n =>
      cases n with
      | pipeline d => rw [modifyValue_pipeline f hl]
      | value d =>
        unfold vvOf
        rw [lookupNode_modifyValue_self s j f d hl, hl]
        exact h d
  · exact vvOf_congr (lookupNode_modifyValue_ne s i j f hne)

theorem tvOf?_modifyValue {s : EngineState} {i : Nat} (f : ValueData → ValueData) (j : Nat) :
    tvOf? (modifyValue s i f) j = tvOf? s j := by
  rcases eq_or_ne j i with rfl | hne
  · cases hl : lookupNode s j with
    | none => rw [modifyValue_none f hl]
    | some n =>
      cases n with
      | pipeline d => rw [modifyValue_pipeline f hl]
      | value d =>
        unfold tvOf?
        rw [lookupNode_modifyValue_self s j f d hl, hl]
  · exact tvOf?_congr (lookupNode_modifyValue_ne s i j f hne)

theorem tvOf_modifyValue {s : EngineState} {i : Nat} (f : ValueData → ValueData) (j : Nat) :
    tvOf (modifyValue s i f) j = tvOf s j := by
  unfold tvOf
  rw [tvOf?_modifyValue f j]

theorem cachedOf?_modifyValue {s : EngineState} {i : Nat} (f : ValueData → ValueData) (j : Nat) :
    cachedOf? (modifyValue s i f) j = cachedOf? s j := by
  rcases eq_or_ne j i with rfl | hne
  · cases hl : lookupNode s j with
    | none => rw [modifyValue_none f hl]
    | some n =>
      cases n with
      | pipeline d => rw [modifyValue_pipeline f hl]
      | value d =>
        unfold cachedOf?
        rw [lookupNode_modifyValue_self s j f d hl, hl]
  · exact cachedOf?_congr (lookupNode_modifyValue_ne s i j f hne)

theorem staleOf?_modifyValue {s : EngineState} {i : Nat} (f : ValueData → ValueData) (j : Nat) :
    staleOf? (modifyValue s i f) j = staleOf? s j := by
  rcases eq_or_ne j i with rfl | hne
  · cases hl : lookupNode s j with
    | none => rw [modifyValue_none f hl]
    | some n =>
      cases n with
      | pipeline d => rw [modifyValue_pipeline f hl]
      | value d =>
        unfold staleOf?
        rw [lookupNode_modifyValue_self s j f d hl, hl]
  · exact staleOf?_congr (lookupNode_modifyValue_ne s i j f hne)

theorem vvOf_modifyConsumers {s : EngineState} {i : Nat}
    (f : LMap Nat Nat → LMap Nat Nat) (j : Nat) :
    vvOf (modifyConsumers s i f) j = vvOf s j := by
  rcases eq_or_ne j i with rfl | hne
  · cases hl : lookupNode s j with
    | none => rw [modifyConsumers_none f hl]
    | some n =>
      cases n with
      | pipeline d =>
        unfold vvOf
        rw [lookupNode_modifyConsumers_pipeline f hl, hl]
      | value d =>
        unfold vvOf
        rw [lookupNode_modifyConsumers_value f hl, hl]
  · exact vvOf_congr (lookupNode_modifyConsumers_ne s i j f hne)

theorem tvOf?_modifyConsumers {s : EngineState} {i : Nat}
    (f : LMap Nat Nat → LMap Nat Nat) (j : Nat) :
    tvOf? (modifyConsumers s i f) j = tvOf? s j := by
  rcases eq_or_ne j i with rfl | hne
  · cases hl : lookupNode s j with
    | none => rw [modifyConsumers_none f hl]
    | some n =>
      cases n with
      | pipeline d =>
        unfold tvOf?
        rw [lookupNode_modifyConsumers_pipeline f hl, hl]
      | value d =>
        unfold tvOf?
        rw [lookupNode_modifyConsumers_value f hl, hl]
  · exact tvOf?_congr (lookupNode_modifyConsumers_ne s i j f hne)

theorem tvOf_modifyConsumers {s : EngineState} {i : Nat}
    (f : LMap Nat Nat → LMap Nat Nat) (j : Nat) :
    tvOf (modifyConsumers s i f) j = tvOf s j := by
  unfold tvOf
  rw [tvOf?_modifyConsumers f j]

theorem cachedOf?_modifyConsumers {s : EngineState} {i : Nat}
    (f : LMap Nat Nat → LMap Nat Nat) (j : Nat) :
    cachedOf? (modifyConsumers s i f) j = cachedOf? s j := by
  rcases eq_or_ne j i with rfl | hne
  · cases hl : lookupNode s j with
    | none => rw [modifyConsumers_none f hl]
    | some n =>
      cases n with
      | pipeline d =>
        unfold cachedOf?
        rw [lookupNode_modifyConsumers_pipeline f hl, hl]
      | value d =>
        unfold cachedOf?
        rw [lookupNode_modifyConsumers_value f hl, hl]
  · exact cachedOf?_congr (lookupNode_modifyConsumers_ne s i j f hne)

theorem staleOf?_modifyConsumers {s : EngineState} {i : Nat}
    (f : LMap Nat Nat → LMap Nat Nat) (j : Nat) :
    staleOf? (modifyConsumers s i f) j = staleOf? s j := by
  rcases eq_or_ne j i with rfl | hne
  · cases hl : lookupNode s j with
    | none => rw [modifyConsumers_none f hl]
    | some n =>
      cases n with
      | pipeline d =>
        unfold staleOf?
        rw [lookupNode_modifyConsumers_pipeline f hl, hl]
      | value d =>
        unfold staleOf?
        rw [lookupNode_modifyConsumers_value f hl, hl]
  · exact staleOf?_congr (lookupNode_modifyConsumers_ne s i j f hne)

theorem evo_modifyConsumers (s : EngineState) (i : Nat) (f : LMap Nat Nat → LMap Nat Nat) :
    Evo s (modifyConsumers s i f) :=
  evo_of_lookup_fields (activeConsumer_modifyConsumers s i f)
    (vvOf_modifyConsumers f) (tvOf_modifyConsumers f) (cachedOf?_modifyConsumers f)

theorem evo_modifyPipeline_aux (s : EngineState) (i : Nat) (f : PipelineData → PipelineData)
    (h1 : ∀ d, (f d).valueVersion = d.valueVersion)
    (h2 : ∀ d, (f d).trackingVersion = d.trackingVersion)
    (h3 : ∀ d, (f d).cached = d.cached) :
    Evo s (modifyPipeline s i f) :=
  evo_of_lookup_fields (activeConsumer_modifyPipeline s i f)
    (vvOf_modifyPipeline f h1) (tvOf_modifyPipeline f h2) (cachedOf?_modifyPipeline f h3)

theorem evo_producerAccessed (s : EngineState) (i : Nat) : Evo s (producerAccessed s i) := by
  unfold producerAccessed
  cases s.activeConsumer with
  | none => exact Evo.refl s
  | some c =>
    exact Evo.trans (evo_modifyConsumers s i _)
      (evo_modifyPipeline_aux _ c _ (fun d => rfl) (fun d => rfl) (fun d => rfl))

theorem evo_setStaleClean (s : EngineState) (i : Nat) : Evo s (setStaleClean s i) :=
  evo_modifyPipeline_aux s i _ (fun d => rfl) (fun d => rfl) (fun d => rfl)

theorem evo_setStaleTo (s : EngineState) (i : Nat) (fl : StaleFlag) : Evo s (setStaleTo s i fl) :=
  evo_modifyPipeline_aux s i _ (fun d => rfl) (fun d => rfl) (fun d => rfl)

theorem evo_removeEdge (s : EngineState) (p c : Nat) : Evo s (removeEdge s p c) := by
  show Evo s (modifyConsumers (modifyPipeline s c _) p _)
  refine Evo.trans ?h1 (evo_modifyConsumers _ p _)
  exact evo_modifyPipeline_aux s c _ (fun d => rfl) (fun d => rfl) (fun d => rfl)

theorem evo_prunePncEdge (s : EngineState) (i c : Nat) : Evo s (prunePncEdge s i c) := by
  show Evo s (modifyPipeline (modifyConsumers s i _) c _)
  refine Evo.trans (evo_modifyConsumers s i (fun m => LMap.delete m c)) ?h2
  exact evo_modifyPipeline_aux _ c _ (fun d => rfl) (fun d => rfl) (fun d => rfl)

theorem evo_bumpLeaf (s : EngineState) (i : Nat) (v : Nat) : Evo s (bumpLeaf s i v) := by
  refine ⟨activeConsumer_modifyValue s i _, fun j => ?_, fun j h => ?_⟩
  · constructor
    · rcases eq_or_ne j i with rfl | hne
      · cases hl : lookupNode s j with
        | none => rw [bumpLeaf, modifyValue_none _ hl]
        | some n =>
          cases n with
          | pipeline d => rw [bumpLeaf, modifyValue_pipeline _ hl]
          | value d =>
            have := lookupNode_modifyValue_self s j
              (fun d0 => { d0 with value := v, valueVersion := d0.valueVersion + 1 }) d hl
            rw [bumpLeaf]
            unfold vvOf
            rw [this, hl]
            exact Nat.le_succ _
      · exact le_of_eq (vvOf_congr (lookupNode_modifyValue_ne s i j _ hne)).symm
    · exact le_of_eq (tvOf_modifyValue _ j).symm
  · refine ⟨(cachedOf?_modifyValue _ j).trans h, ?_, tvOf_modifyValue _ j⟩
    rcases eq_or_ne j i with rfl | hne
    · -- a node with a cached sentinel is a pipeline node, so bumpLeaf is a no-op on it
      unfold cachedOf? at h
      cases hl : lookupNode s j with
      | none => rw [hl] at h; exact absurd h (by simp)
      | some n =>
        cases n with
        | value d => rw [hl] at h; exact absurd h (by simp)
        | pipeline d => rw [bumpLeaf, modifyValue_pipeline _ hl]
    · exact vvOf_congr (lookupNode_modifyValue_ne s i j _ hne)

theorem resEvo_of_evo {α : Type} {s s1 : EngineState} {r : Res α}
    (h : ResEvo s1 r) (h0 : Evo s s1) : ResEvo s r := by
  cases r with
  | ok a s2 => exact Evo.trans h0 h
  | err e s2 => exact Evo.trans h0 h
  | out => trivial

/-! Field lemmas for `recomputeMid` and the cache-updating primitives. -/

theorem activeConsumer_recomputeMid (s : EngineState) (i : Nat) :
    (recomputeMid s i).activeConsumer = some i := rfl

theorem vvOf_recomputeMid (s : EngineState) (i : Nat) (j : Nat) :
    vvOf (recomputeMid s i) j = vvOf s j := by
  unfold recomputeMid
  show vvOf { modifyPipeline s i _ with activeConsumer := some i, calcCount := s.calcCount + 1 } j = _
  have : vvOf { modifyPipeline s i (fun d => { d with cached := CachedVal.computing, trackingVersion := d.trackingVersion + 1 }) with activeConsumer := some i, calcCount := s.calcCount + 1 } j = vvOf (modifyPipeline s i (fun d => { d with cached := CachedVal.computing, trackingVersion := d.trackingVersion + 1 })) j := rfl
  rw [this]
  apply vvOf_modifyPipeline
  intro d
  rfl

theorem tvOf_recomputeMid_ne (s : EngineState) (i : Nat) (j : Nat) (h : j ≠ i) :
    tvOf (recomputeMid s i) j = tvOf s j := by
  unfold recomputeMid tvOf tvOf?
  rw [show lookupNode { modifyPipeline s i (fun d => { d with cached := CachedVal.computing, trackingVersion := d.trackingVersion + 1 }) with activeConsumer := some i, calcCount := s.calcCount + 1 } j = lookupNode (modifyPipeline s i (fun d => { d with cached := CachedVal.computing, trackingVersion := d.trackingVersion + 1 })) j from rfl]
  rw [lookupNode_modifyPipeline_ne s i j _ h]

theorem cachedOf?_recomputeMid_ne (s : EngineState) (i : Nat) (j : Nat) (h : j ≠ i) :
    cachedOf? (recomputeMid s i) j = cachedOf? s j := by
  unfold recomputeMid cachedOf?
  rw [show lookupNode { modifyPipeline s i (fun d => { d with cached := CachedVal.computing, trackingVersion := d.trackingVersion + 1 }) with activeConsumer := some i, calcCount := s.calcCount + 1 } j = lookupNode (modifyPipeline s i (fun d => { d with cached := CachedVal.computing, trackingVersion := d.trackingVersion + 1 })) j from rfl]
  rw [lookupNode_modifyPipeline_ne s i j _ h]

theorem lookupNode_recomputeMid_self {s : EngineState} {i : Nat} {d : PipelineData}
    (h : lookupNode s i = some (Node.pipeline d)) :
    lookupNode (recomputeMid s i) i =
      some (Node.pipeline { d with cached := CachedVal.computing, trackingVersion := d.trackingVersion + 1 }) := by
  unfold recomputeMid
  rw [show lookupNode { modifyPipeline s i (fun d0 => { d0 with cached := CachedVal.computing, trackingVersion := d0.trackingVersion + 1 }) with activeConsumer := some i, calcCount := s.calcCount + 1 } i = lookupNode (modifyPipeline s i (fun d0 => { d0 with cached := CachedVal.computing, trackingVersion := d0.trackingVersion + 1 })) i from rfl]
  exact lookupNode_modifyPipeline_self s i _ d h

theorem tvOf_recomputeMid_self {s : EngineState} {i : Nat} {d : PipelineData}
    (h : lookupNode s i = some (Node.pipeline d)) :
    tvOf (recomputeMid s i) i = d.trackingVersion + 1 := by
  unfold tvOf tvOf?
  rw [lookupNode_recomputeMid_self h]
  rfl

theorem cachedOf?_recomputeMid_self {s : EngineState} {i : Nat} {d : PipelineData}
    (h : lookupNode s i = some (Node.pipeline d)) :
    cachedOf? (recomputeMid s i) i = some CachedVal.computing := by
  unfold cachedOf?
  rw [lookupNode_recomputeMid_self h]

theorem activeConsumer_setCached (s : EngineState) (i : Nat) (c : CachedVal) :
    (setCached s i c).activeConsumer = s.activeConsumer :=
  activeConsumer_modifyPipeline s i _

theorem vvOf_setCached (s : EngineState) (i : Nat) (c : CachedVal) (j : Nat) :
    vvOf (setCached s i c) j = vvOf s j := by
  apply vvOf_modifyPipeline
  intro d
  rfl

theorem tvOf_setCached (s : EngineState) (i : Nat) (c : CachedVal) (j : Nat) :
    tvOf (setCached s i c) j = tvOf s j := by
  apply tvOf_modifyPipeline
  intro d
  rfl

theorem cachedOf?_setCached_ne (s : EngineState) (i : Nat) (c : CachedVal) (j : Nat) (h : j ≠ i) :
    cachedOf? (setCached s i c) j = cachedOf? s j :=
  cachedOf?_congr (lookupNode_modifyPipeline_ne s i j _ h)

theorem lookupNode_setCached_self {s : EngineState} {i : Nat} {c : CachedVal} {d : PipelineData}
    (h : lookupNode s i = some (Node.pipeline d)) :
    lookupNode (setCached s i c) i = some (Node.pipeline { d with cached := c }) :=
  lookupNode_modifyPipeline_self s i _ d h

theorem activeConsumer_bumpVV (s : EngineState) (i : Nat) :
    (bumpVV s i).activeConsumer = s.activeConsumer :=
  activeConsumer_modifyPipeline s i _

theorem tvOf_bumpVV (s : EngineState) (i : Nat) (j : Nat) : tvOf (bumpVV s i) j = tvOf s j := by
  apply tvOf_modifyPipeline
  intro d
  rfl

theorem cachedOf?_bumpVV (s : EngineState) (i : Nat) (j : Nat) :
    cachedOf? (bumpVV s i) j = cachedOf? s j := by
  apply cachedOf?_modifyPipeline
  intro d
  rfl

theorem vvOf_bumpVV_ne (s : EngineState) (i : Nat) (j : Nat) (h : j ≠ i) :
    vvOf (bumpVV s i) j = vvOf s j :=
  vvOf_congr (lookupNode_modifyPipeline_ne s i j _ h)

theorem vvOf_bumpVV_self {s : EngineState} {i : Nat} {d : PipelineData}
    (h : lookupNode s i = some (Node.pipeline d)) :
    vvOf (bumpVV s i) i = d.valueVersion + 1 := by
  unfold vvOf bumpVV
  rw [lookupNode_modifyPipeline_self s i _ d h]

theorem vvOf_bumpVV_ge (s : EngineState) (i : Nat) (j : Nat) : vvOf s j ≤ vvOf (bumpVV s i) j := by
  rcases eq_or_ne j i with rfl | hne
  · cases hl : lookupNode s j with
    | none => rw [bumpVV, modifyPipeline_none _ hl]
    | some n =>
      cases n with
      | value d => rw [bumpVV, modifyPipeline_value _ hl]
      | pipeline d =>
        rw [vvOf_bumpVV_self hl]
        unfold vvOf
        rw [hl]
        exact Nat.le_succ _
  · exact le_of_eq (vvOf_bumpVV_ne s i j hne).symm

theorem vvOf_setStaleClean (s : EngineState) (i : Nat) (j : Nat) :
    vvOf (setStaleClean s i) j = vvOf s j := by
  apply vvOf_modifyPipeline
  intro d
  rfl

theorem tvOf_setStaleClean (s : EngineState) (i : Nat) (j : Nat) :
    tvOf (setStaleClean s i) j = tvOf s j := by
  apply tvOf_modifyPipeline
  intro d
  rfl

theorem cachedOf?_setStaleClean (s : EngineState) (i : Nat) (j : Nat) :
    cachedOf? (setStaleClean s i) j = cachedOf? s j := by
  apply cachedOf?_modifyPipeline
  intro d
  rfl

theorem activeConsumer_setStaleClean (s : EngineState) (i : Nat) :
    (setStaleClean s i).activeConsumer = s.activeConsumer :=
  activeConsumer_modifyPipeline s i _

theorem tvOf_recomputeMid_ge (s : EngineState) (i : Nat) (j : Nat) :
    tvOf s j ≤ tvOf (recomputeMid s i) j := by
  rcases eq_or_ne j i with rfl | hne
  · cases hl : lookupNode s j with
    | none =>
      unfold recomputeMid
      rw [modifyPipeline_none _ hl]
      exact le_of_eq (tvOf_congr rfl)
    | some n =>
      cases n with
      | value d =>
        unfold recomputeMid
        rw [modifyPipeline_value _ hl]
        exact le_of_eq (tvOf_congr rfl)
      | pipeline d =>
        rw [tvOf_recomputeMid_self hl]
        unfold tvOf tvOf?
        rw [hl]
        exact Nat.le_succ _
  · exact le_of_eq (tvOf_recomputeMid_ne s i j hne).symm

/-- Re-entering the surrounding state after a recomputation's calculate ran:
restoring the ambient consumer on top of any evolution of the marked state
is an evolution of the original state, provided the node was not already
computing at entry. -/
theorem evo_from_mid {s s3 : EngineState} {i : Nat} (hmid : Evo (recomputeMid s i) s3)
    (hi : cachedOf? s i ≠ some CachedVal.computing) :
    Evo s { s3 with activeConsumer := s.activeConsumer } := by
  obtain ⟨_, hm, hf⟩ := hmid
  refine ⟨rfl, fun j => ⟨?_, ?_⟩, fun j hj => ?_⟩
  · have h1 : vvOf s j = vvOf (recomputeMid s i) j := (vvOf_recomputeMid s i j).symm
    have h3 : vvOf { s3 with activeConsumer := s.activeConsumer } j = vvOf s3 j := rfl
    rw [h1, h3]
    exact (hm j).1
  · have h3 : tvOf { s3 with activeConsumer := s.activeConsumer } j = tvOf s3 j := rfl
    rw [h3]
    exact (tvOf_recomputeMid_ge s i j).trans (hm j).2
  · have hji : j ≠ i := by
      intro e
      rw [e] at hj
      exact hi hj
    have hjm : cachedOf? (recomputeMid s i) j = some CachedVal.computing := by
      rw [cachedOf?_recomputeMid_ne s i j hji]
      exact hj
    obtain ⟨hc, hv, ht⟩ := hf j hjm
    refine ⟨hc, ?_, ?_⟩
    · show vvOf s3 j = vvOf s j
      rw [hv, vvOf_recomputeMid]
    · show tvOf s3 j = tvOf s j
      rw [ht, tvOf_recomputeMid_ne s i j hji]

theorem evo_setCached_of_ne {s s4 : EngineState} {i : Nat} (h : Evo s s4)
    (hi : cachedOf? s i ≠ some CachedVal.computing) (x : CachedVal) :
    Evo s (setCached s4 i x) := by
  obtain ⟨ha, hm, hf⟩ := h
  refine ⟨(activeConsumer_setCached s4 i x).trans ha, fun j => ⟨?_, ?_⟩, fun j hj => ?_⟩
  · rw [vvOf_setCached]
    exact (hm j).1
  · rw [tvOf_setCached]
    exact (hm j).2
  · have hji : j ≠ i := by
      intro e
      rw [e] at hj
      exact hi hj
    obtain ⟨hc, hv, ht⟩ := hf j hj
    exact ⟨(cachedOf?_setCached_ne s4 i x j hji).trans hc,
      (vvOf_setCached s4 i x j).trans hv, (tvOf_setCached s4 i x j).trans ht⟩

theorem evo_bumpVV_of_ne {s s4 : EngineState} {i : Nat} (h : Evo s s4)
    (hi : cachedOf? s i ≠ some CachedVal.computing) :
    Evo s (bumpVV s4 i) := by
  obtain ⟨ha, hm, hf⟩ := h
  refine ⟨(activeConsumer_bumpVV s4 i).trans ha, fun j => ⟨?_, ?_⟩, fun j hj => ?_⟩
  · exact (hm j).1.trans (vvOf_bumpVV_ge s4 i j)
  · rw [tvOf_bumpVV]
    exact (hm j).2
  · have hji : j ≠ i := by
      intro e
      rw [e] at hj
      exact hi hj
    obtain ⟨hc, hv, ht⟩ := hf j hj
    exact ⟨(cachedOf?_bumpVV s4 i j).trans hc,
      (vvOf_bumpVV_ne s4 i j hji).trans hv, (tvOf_bumpVV s4 i j).trans ht⟩

theorem resEvo_ok {α : Type} {s s1 : EngineState} {a : α} {r : Res α}
    (h : ResEvo s r) (he : r = Res.ok a s1) : Evo s s1 := by
  subst he
  exact h

theorem resEvo_err {α : Type} {s s1 : EngineState} {e : EngErr} {r : Res α}
    (h : ResEvo s r) (he : r = Res.err e s1) : Evo s s1 := by
  subst he
  exact h

/-- Master evolution lemma: every interpreted engine call, on success and on
error alike, restores the ambient active-consumer slot, never decreases any
node's `valueVersion` or `trackingVersion`, and leaves any node that was in
the `COMPUTING` state still computing with both its versions untouched. -/
theorem evo_step : ∀ (fuel : Nat) (c : Call) (s : EngineState), ResEvo s (step c fuel s) := by
  intro fuel
  induction fuel with
  | zero =>
    intro c s
    cases c <;> trivial
  | succ fuel IH =>
    intro c s
    cases c with
    | getValue i =>
      simp only [step]
      cases hl : lookupNode s i with
      | none => exact Evo.refl s
      | some n =>
        cases n with
        | value d => exact evo_producerAccessed s i
        | pipeline d =>
          dsimp only
          cases hr : step (Call.checkForActuallyChangedValue i) fuel s with
          | ok a s1 =>
            dsimp only
            have h2 : Evo s (producerAccessed s1 i) :=
              Evo.trans (resEvo_ok (IH (Call.checkForActuallyChangedValue i) s) hr)
                (evo_producerAccessed s1 i)
            cases hc : cachedOf? (producerAccessed s1 i) i with
            | none => exact h2
            | some cv =>
              cases cv with
              | unset => exact h2
              | computing => exact h2
              | val v => exact h2
          | err e s1 => exact resEvo_err (IH (Call.checkForActuallyChangedValue i) s) hr
          | out => trivial
    | checkForActuallyChangedValue i =>
      simp only [step]
      cases hl : lookupNode s i with
      | none => exact Evo.refl s
      | some n =>
        cases n with
        | value d => exact Evo.refl s
        | pipeline d =>
          dsimp only
          cases hst : d.stale with
          | clean => exact Evo.refl s
          | dirty =>
            dsimp only
            cases hc : d.cached with
            | unset => exact IH (Call.recomputeValue i) s
            | computing => exact IH (Call.recomputeValue i) s
            | val v =>
              dsimp only
              cases hp : step (Call.consumerPollValueStatus i (staleHint StaleFlag.dirty)) fuel s with
              | ok b s1 =>
                have h1 : Evo s s1 :=
                  resEvo_ok (IH (Call.consumerPollValueStatus i (staleHint StaleFlag.dirty)) s) hp
                cases b with
                | true => exact resEvo_of_evo (IH (Call.recomputeValue i) s1) h1
                | false => exact Evo.trans h1 (evo_setStaleClean s1 i)
              | err e s1 =>
                exact resEvo_err (IH (Call.consumerPollValueStatus i (staleHint StaleFlag.dirty)) s) hp
              | out => trivial
          | producer q =>
            dsimp only
            cases hc : d.cached with
            | unset => exact IH (Call.recomputeValue i) s
            | computing => exact IH (Call.recomputeValue i) s
            | val v =>
              dsimp only
              cases hp : step (Call.consumerPollValueStatus i (staleHint (StaleFlag.producer q))) fuel s with
              | ok b s1 =>
                have h1 : Evo s s1 :=
                  resEvo_ok (IH (Call.consumerPollValueStatus i (staleHint (StaleFlag.producer q))) s) hp
                cases b with
                | true => exact resEvo_of_evo (IH (Call.recomputeValue i) s1) h1
                | false => exact Evo.trans h1 (evo_setStaleClean s1 i)
              | err e s1 =>
                exact resEvo_err (IH (Call.consumerPollValueStatus i (staleHint (StaleFlag.producer q))) s) hp
              | out => trivial
    | recomputeValue i =>
      simp only [step]
      cases hl : lookupNode s i with
      | none => exact Evo.refl s
      | some n =>
        cases n with
        | value d => exact Evo.refl s
        | pipeline d =>
          dsimp only
          by_cases hcomp : d.cached = CachedVal.computing
          · rw [if_pos hcomp]
            exact Evo.refl s
          · rw [if_neg hcomp]
            have hi : cachedOf? s i ≠ some CachedVal.computing := by
              unfold cachedOf?
              rw [hl]
              intro hcon
              exact hcomp (Option.some.inj hcon)
            cases hr : step (Call.runCalcSteps d.calcFn.steps []) fuel (recomputeMid s i) with
            | out => trivial
            | err e s3 =>
              exact evo_from_mid (resEvo_err (IH (Call.runCalcSteps d.calcFn.steps []) (recomputeMid s i)) hr) hi
            | ok vals s3 =>
              dsimp only
              have h5 : Evo s (setStaleClean { s3 with activeConsumer := s.activeConsumer } i) :=
                Evo.trans
                  (evo_from_mid (resEvo_ok (IH (Call.runCalcSteps d.calcFn.steps []) (recomputeMid s i)) hr) hi)
                  (evo_setStaleClean _ i)
              by_cases heq : d.cached = CachedVal.val (d.calcFn.combine vals)
              · rw [if_pos heq]
                exact evo_setCached_of_ne h5 hi d.cached
              · rw [if_neg heq]
                exact evo_bumpVV_of_ne (evo_setCached_of_ne h5 hi _) hi
    | runCalcSteps steps acc =>
      simp only [step]
      cases steps with
      | nil => exact Evo.refl s
      | cons st rest =>
        cases st with
        | readStep n =>
          dsimp only
          cases hr : step (Call.getValue n) fuel s with
          | ok v s1 =>
            exact resEvo_of_evo (IH (Call.runCalcSteps rest (acc ++ [v])) s1)
              (resEvo_ok (IH (Call.getValue n) s) hr)
          | err e s1 => exact resEvo_err (IH (Call.getValue n) s) hr
          | out => trivial
        | writeStep n v =>
          dsimp only
          cases hr : step (Call.setValue n v) fuel s with
          | ok a s1 =>
            exact resEvo_of_evo (IH (Call.runCalcSteps rest acc) s1)
              (resEvo_ok (IH (Call.setValue n v) s) hr)
          | err e s1 => exact resEvo_err (IH (Call.setValue n v) s) hr
          | out => trivial
    | notify i notifier =>
      simp only [step]
      cases hl : lookupNode s i with
      | none => exact Evo.refl s
      | some n =>
        cases n with
        | value d => exact Evo.refl s
        | pipeline d =>
          dsimp only
          cases hst : d.stale with
          | clean =>
            dsimp only
            by_cases hcomp : d.cached = CachedVal.computing
            · rw [if_pos hcomp]
              exact Evo.refl s
            · rw [if_neg hcomp]
              exact resEvo_of_evo (IH (Call.producerNotifyConsumers i) _) (evo_setStaleTo s i _)
          | dirty => exact Evo.refl s
          | producer q => exact Evo.refl s
    | producerNotifyConsumers i =>
      simp only [step]
      exact IH (Call.pncLoop i (LMap.toTuples (consumersOf s i))) s
    | pncLoop i entries =>
      simp only [step]
      cases entries with
      | nil => exact Evo.refl s
      | cons e rest =>
        obtain ⟨c0, tvRec⟩ := e
        dsimp only
        cases ht : tvOf? s c0 with
        | some tvc =>
          dsimp only
          by_cases htv : tvc = tvRec
          · rw [if_pos htv]
            cases hr : step (Call.notify c0 (some i)) fuel s with
            | ok a s1 =>
              exact resEvo_of_evo (IH (Call.pncLoop i rest) s1)
                (resEvo_ok (IH (Call.notify c0 (some i)) s) hr)
            | err e1 s1 => exact resEvo_err (IH (Call.notify c0 (some i)) s) hr
            | out => trivial
          · rw [if_neg htv]
            exact resEvo_of_evo (IH (Call.pncLoop i rest) (prunePncEdge s i c0)) (evo_prunePncEdge s i c0)
        | none =>
          exact resEvo_of_evo (IH (Call.pncLoop i rest) (prunePncEdge s i c0)) (evo_prunePncEdge s i c0)
    | consumerPollValueStatus c notifier =>
      simp only [step]
      cases hl : lookupNode s c with
      | none => exact Evo.refl s
      | some n =>
        cases n with
        | value d => exact Evo.refl s
        | pipeline d =>
          dsimp only
          cases notifier with
          | none => exact IH (Call.pollLoop c none (LMap.toTuples (producersOf s c))) s
          | some p =>
            dsimp only
            by_cases hat : LMap.get (consumersOf s p) c = some d.trackingVersion
            · rw [if_pos hat]
              cases hr : step (Call.producerPollStatus p (LMap.get d.producers p)) fuel s with
              | ok b s1 =>
                have h1 : Evo s s1 :=
                  resEvo_ok (IH (Call.producerPollStatus p (LMap.get d.producers p)) s) hr
                cases b with
                | true => exact h1
                | false =>
                  dsimp only
                  by_cases hsz : LMap.size (producersOf s1 c) = 1
                  · rw [if_pos hsz]
                    exact h1
                  · rw [if_neg hsz]
                    exact resEvo_of_evo (IH (Call.pollLoop c (some p) (LMap.toTuples (producersOf s1 c))) s1) h1
              | err e s1 => exact resEvo_err (IH (Call.producerPollStatus p (LMap.get d.producers p)) s) hr
              | out => trivial
            · rw [if_neg hat]
              by_cases hsz : LMap.size (producersOf s c) = 1
              · rw [if_pos hsz]
                exact Evo.refl s
              · rw [if_neg hsz]
                exact IH (Call.pollLoop c (some p) (LMap.toTuples (producersOf s c))) s
    | pollLoop c skip entries =>
      simp only [step]
      cases entries with
      | nil => exact Evo.refl s
      | cons e rest =>
        obtain ⟨p, w⟩ := e
        dsimp only
        by_cases hskip : skip = some p
        · rw [if_pos hskip]
          exact IH (Call.pollLoop c skip rest) s
        · rw [if_neg hskip]
          by_cases hat : LMap.get (consumersOf s p) c = some (tvOf s c)
          · rw [if_pos hat]
            cases hr : step (Call.producerPollStatus p (some w)) fuel s with
            | ok b s1 =>
              have h1 : Evo s s1 := resEvo_ok (IH (Call.producerPollStatus p (some w)) s) hr
              cases b with
              | true => exact h1
              | false => exact resEvo_of_evo (IH (Call.pollLoop c skip rest) s1) h1
            | err e1 s1 => exact resEvo_err (IH (Call.producerPollStatus p (some w)) s) hr
            | out => trivial
          · rw [if_neg hat]
            exact resEvo_of_evo (IH (Call.pollLoop c skip rest) (removeEdge s p c)) (evo_removeEdge s p c)
    | producerPollStatus p lastSeen =>
      simp only [step]
      cases hl : lookupNode s p with
      | none => exact Evo.refl s
      | some n =>
        dsimp only
        by_cases hvv : some (vvOf s p) ≠ lastSeen
        · rw [if_pos hvv]
          exact Evo.refl s
        · rw [if_neg hvv]
          cases hr : step (Call.checkForActuallyChangedValue p) fuel s with
          | ok a s1 => exact resEvo_ok (IH (Call.checkForActuallyChangedValue p) s) hr
          | err e s1 => exact resEvo_err (IH (Call.checkForActuallyChangedValue p) s) hr
          | out => trivial
    | setValue i v =>
      simp only [step]
      cases hl : lookupNode s i with
      | none => exact Evo.refl s
      | some n =>
        cases n with
        | pipeline d => exact Evo.refl s
        | value d =>
          dsimp only
          by_cases hv : v = d.value
          · rw [if_pos hv]
            exact Evo.refl s
          · rw [if_neg hv]
            exact resEvo_of_evo (IH (Call.producerNotifyConsumers i) (bumpLeaf s i v)) (evo_bumpLeaf s i v)

theorem evo_step_ok {fuel : Nat} {c : Call} {s s1 : EngineState} {a : c.ret}
    (h : step c fuel s = Res.ok a s1) : Evo s s1 :=
  resEvo_ok (evo_step fuel c s) h

theorem evo_step_err {fuel : Nat} {c : Call} {s s1 : EngineState} {e : EngErr}
    (h : step c fuel s = Res.err e s1) : Evo s s1 :=
  resEvo_err (evo_step fuel c s) h

theorem leafValOf_congr {s1 s2 : EngineState} {j : Nat}
    (h : lookupNode s1 j = lookupNode s2 j) : leafValOf s1 j = leafValOf s2 j := by
  unfold leafValOf
  rw [h]

theorem lookupNode_bumpLeaf_self {s : EngineState} {i : Nat} {v : Nat} {d : ValueData}
    (h : lookupNode s i = some (Node.value d)) :
    lookupNode (bumpLeaf s i v) i =
      some (Node.value { d with value := v, valueVersion := d.valueVersion + 1 }) :=
  lookupNode_modifyValue_self s i _ d h

theorem vvOf_bumpLeaf_self {s : EngineState} {i : Nat} {v : Nat} {d : ValueData}
    (h : lookupNode s i = some (Node.value d)) :
    vvOf (bumpLeaf s i v) i = d.valueVersion + 1 := by
  unfold vvOf
  rw [lookupNode_bumpLeaf_self h]

theorem leafValOf_bumpLeaf_self {s : EngineState} {i : Nat} {v : Nat} {d : ValueData}
    (h : lookupNode s i = some (Node.value d)) :
    leafValOf (bumpLeaf s i v) i = some v := by
  unfold leafValOf
  rw [lookupNode_bumpLeaf_self h]

theorem consumersOf_modifyValue {s : EngineState} {i : Nat} (f : ValueData → ValueData)
    (h : ∀ d, (f d).consumers = d.consumers) (j : Nat) :
    consumersOf (modifyValue s i f) j = consumersOf s j := by
  rcases eq_or_ne j i with rfl | hne
  · cases hl : lookupNode s j with
    | none => rw [modifyValue_none f hl]
    | some n =>
      cases n with
      | pipeline d => rw [modifyValue_pipeline f hl]
      | value d =>
        unfold consumersOf
        rw [lookupNode_modifyValue_self s j f d hl, hl]
        exact h d
  · exact consumersOf_congr (lookupNode_modifyValue_ne s i j f hne)

theorem evo_modifyValue_aux (s : EngineState) (i : Nat) (f : ValueData → ValueData)
    (h1 : ∀ d, (f d).valueVersion = d.valueVersion) : Evo s (modifyValue s i f) :=
  evo_of_lookup_fields (activeConsumer_modifyValue s i f)
    (vvOf_modifyValue f h1) (tvOf_modifyValue f) (cachedOf?_modifyValue f)

theorem evo_mutateValue (i : Nat) (m : Nat → Except Nat Nat) (fuel : Nat) (s : EngineState) :
    ResEvo s (mutateValue i m fuel s) := by
  unfold mutateValue
  cases hl : lookupNode s i with
  | none => exact Evo.refl s
  | some n =>
    cases n with
    | pipeline d => exact Evo.refl s
    | value d =>
      dsimp only
      cases hm : m d.value with
      | error v1 => exact evo_modifyValue_aux s i _ (fun d0 => rfl)
      | ok v1 =>
        refine resEvo_of_evo (evo_step fuel (Call.producerNotifyConsumers i) _) ?_
        exact evo_bumpLeaf s i v1

theorem evo_updateValue (i : Nat) (f : Nat → Nat) (fuel : Nat) (s : EngineState) :
    ResEvo s (updateValue i f fuel s) := by
  unfold updateValue
  cases hl : lookupNode s i with
  | none => exact Evo.refl s
  | some n =>
    cases n with
    | pipeline d => exact Evo.refl s
    | value d => exact evo_step fuel (Call.setValue i (f d.value)) s

theorem evo_stateOf {α : Type} {s : EngineState} {r : Res α} (h : ResEvo s r) :
    Evo s (stateOf r s) := by
  cases r with
  | ok a s1 => exact h
  | err e s1 => exact h
  | out => exact Evo.refl s

theorem evo_applyOp (fuel : Nat) (s : EngineState) (op : Op) : Evo s (applyOp fuel s op) := by
  cases op with
  | read n => exact evo_stateOf (evo_step fuel (Call.getValue n) s)
  | set n v => exact evo_stateOf (evo_step fuel (Call.setValue n v) s)
  | update n f => exact evo_stateOf (evo_updateValue n f fuel s)
  | mutate n m => exact evo_stateOf (evo_mutateValue n m fuel s)

theorem evo_applyOps (fuel : Nat) (ops : List Op) (s : EngineState) :
    Evo s (applyOps fuel ops s) := by
  induction ops generalizing s with
  | nil => exact Evo.refl s
  | cons op rest ih => exact Evo.trans (evo_applyOp fuel s op) (ih (applyOp fuel s op))

theorem applyOps_append (fuel : Nat) (ops1 ops2 : List Op) (s : EngineState) :
    applyOps fuel (ops1 ++ ops2) s = applyOps fuel ops2 (applyOps fuel ops1 s) :=
  List.foldl_append _ _ _ _

/-- C5: for a `ValuePipeline` leaf, `setValue` with a value identical to the
current one does nothing at all — the returned state is the input state, so
the stored value, `valueVersion` and `consumers` map are unchanged and no
consumer is notified; otherwise it stores the value, increments
`valueVersion`, and then notifies the registered consumers
(`producerNotifyConsumers` on the updated state). -/
theorem claim_C5_setValue_identity_noop (s : EngineState) (i v : Nat) (d : ValueData)
    (fuel : Nat) (hl : lookupNode s i = some (Node.value d)) :
    (v = d.value → step (Call.setValue i v) (fuel + 1) s = Res.ok () s) ∧
    (v ≠ d.value →
      step (Call.setValue i v) (fuel + 1) s =
        step (Call.producerNotifyConsumers i) fuel (bumpLeaf s i v) ∧
      leafValOf (bumpLeaf s i v) i = some v ∧
      vvOf (bumpLeaf s i v) i = vvOf s i + 1) := by
  constructor
  · intro hv
    simp only [step]
    rw [hl]
    dsimp only
    rw [if_pos hv]
  · intro hv
    refine ⟨?_, leafValOf_bumpLeaf_self hl, ?_⟩
    · simp only [step]
      rw [hl]
      dsimp only
      rw [if_neg hv]
    · rw [vvOf_bumpLeaf_self hl]
      unfold vvOf
      rw [hl]

/-- Witness for C5 at a concrete one-leaf graph holding 5: writing 5 is a
no-op, writing 7 stores 7, bumps the version and proceeds to notification. -/
theorem claim_C5_setValue_identity_noop_witness :
    step (Call.setValue 0 5) 11 (buildGraph [GNode.leaf 5]) = Res.ok () (buildGraph [GNode.leaf 5]) ∧
    (step (Call.setValue 0 7) 11 (buildGraph [GNode.leaf 5]) =
        step (Call.producerNotifyConsumers 0) 10 (bumpLeaf (buildGraph [GNode.leaf 5]) 0 7) ∧
      leafValOf (bumpLeaf (buildGraph [GNode.leaf 5]) 0 7) 0 = some 7 ∧
      vvOf (bumpLeaf (buildGraph [GNode.leaf 5]) 0 7) 0 = vvOf (buildGraph [GNode.leaf 5]) 0 + 1) := by
  constructor
  · exact (claim_C5_setValue_identity_noop (buildGraph [GNode.leaf 5]) 0 5 ⟨[], 1, 5⟩ 10 rfl).1 rfl
  · exact (claim_C5_setValue_identity_noop (buildGraph [GNode.leaf 5]) 0 7 ⟨[], 1, 5⟩ 10 rfl).2 (by decide)

/-- C10: `ValuePipeline.mutateValue` runs the mutator first; if the mutator
throws, the exception propagates with `valueVersion` unchanged, the consumers
map unchanged, every node's stale flag unchanged and no notification
performed (the resulting state differs from the input at most in the held
value); if the mutator returns normally, `valueVersion` is incremented and
consumers are notified unconditionally — also when the held value was not
actually changed. -/
theorem claim_C10_mutateValue_exception_and_unconditional_bump
    (s : EngineState) (i : Nat) (d : ValueData) (m : Nat → Except Nat Nat) (fuel : Nat)
    (hl : lookupNode s i = some (Node.value d)) :
    (∀ v1, m d.value = Except.error v1 →
      mutateValue i m fuel s =
        Res.err EngErr.userExn (modifyValue s i (fun d0 => { d0 with value := v1 })) ∧
      vvOf (modifyValue s i (fun d0 => { d0 with value := v1 })) i = vvOf s i ∧
      (∀ j, consumersOf (modifyValue s i (fun d0 => { d0 with value := v1 })) j = consumersOf s j) ∧
      (∀ j, staleOf? (modifyValue s i (fun d0 => { d0 with value := v1 })) j = staleOf? s j)) ∧
    (∀ v1, m d.value = Except.ok v1 →
      mutateValue i m fuel s = step (Call.producerNotifyConsumers i) fuel (bumpLeaf s i v1) ∧
      vvOf (bumpLeaf s i v1) i = vvOf s i + 1) := by
  constructor
  · intro v1 hm
    refine ⟨?_, vvOf_modifyValue (fun d0 => { d0 with value := v1 }) (fun d0 => rfl) i,
      consumersOf_modifyValue (fun d0 => { d0 with value := v1 }) (fun d0 => rfl),
      staleOf?_modifyValue (fun d0 => { d0 with value := v1 })⟩
    unfold mutateValue
    rw [hl]
    dsimp only
    rw [hm]
  · intro v1 hm
    constructor
    · unfold mutateValue
      rw [hl]
      dsimp only
      rw [hm]
      rfl
    · rw [vvOf_bumpLeaf_self hl]
      unfold vvOf
      rw [hl]

/-- Witness for C10 on a one-leaf graph holding 5: a throwing mutator
propagates with the version unchanged; a mutator returning the same value
still bumps the version and notifies. -/
theorem claim_C10_mutateValue_witness :
    (mutateValue 0 (fun _ => Except.error 9) 10 (buildGraph [GNode.leaf 5]) =
        Res.err EngErr.userExn
          (modifyValue (buildGraph [GNode.leaf 5]) 0 (fun d0 => { d0 with value := 9 })) ∧
      vvOf (modifyValue (buildGraph [GNode.leaf 5]) 0 (fun d0 => { d0 with value := 9 })) 0 =
        vvOf (buildGraph [GNode.leaf 5]) 0) ∧
    (mutateValue 0 (fun x => Except.ok x) 10 (buildGraph [GNode.leaf 5]) =
        step (Call.producerNotifyConsumers 0) 10 (bumpLeaf (buildGraph [GNode.leaf 5]) 0 5) ∧
      vvOf (bumpLeaf (buildGraph [GNode.leaf 5]) 0 5) 0 = vvOf (buildGraph [GNode.leaf 5]) 0 + 1) := by
  constructor
  · have h := (claim_C10_mutateValue_exception_and_unconditional_bump
      (buildGraph [GNode.leaf 5]) 0 ⟨[], 1, 5⟩ (fun _ => Except.error 9) 10 rfl).1 9 rfl
    exact ⟨h.1, h.2.1⟩
  · exact (claim_C10_mutateValue_exception_and_unconditional_bump
      (buildGraph [GNode.leaf 5]) 0 ⟨[], 1, 5⟩ (fun x => Except.ok x) 10 rfl).2 5 rfl

theorem cachedOf?_producerAccessed (s : EngineState) (i : Nat) (j : Nat) :
    cachedOf? (producerAccessed s i) j = cachedOf? s j := by
  unfold producerAccessed
  cases s.activeConsumer with
  | none => rfl
  | some c =>
    dsimp only
    have h2 := @cachedOf?_modifyConsumers s i (fun m => LMap.set m c (tvOf s c)) j
    refine Eq.trans ?_ h2
    apply cachedOf?_modifyPipeline
    intro d
    rfl

theorem staleOf?_producerAccessed (s : EngineState) (i : Nat) (j : Nat) :
    staleOf? (producerAccessed s i) j = staleOf? s j := by
  unfold producerAccessed
  cases s.activeConsumer with
  | none => rfl
  | some c =>
    dsimp only
    have h2 := @staleOf?_modifyConsumers s i (fun m => LMap.set m c (tvOf s c)) j
    refine Eq.trans ?_ h2
    apply staleOf?_modifyPipeline
    intro d
    rfl

theorem vvOf_producerAccessed (s : EngineState) (i : Nat) (j : Nat) :
    vvOf (producerAccessed s i) j = vvOf s j := by
  unfold producerAccessed
  cases s.activeConsumer with
  | none => rfl
  | some c =>
    dsimp only
    have h2 := @vvOf_modifyConsumers s i (fun m => LMap.set m c (tvOf s c)) j
    refine Eq.trans ?_ h2
    apply vvOf_modifyPipeline
    intro d
    rfl

theorem lookupNode_setStaleClean_self {s : EngineState} {i : Nat} {d : PipelineData}
    (h : lookupNode s i = some (Node.pipeline d)) :
    lookupNode (setStaleClean s i) i = some (Node.pipeline { d with stale := StaleFlag.clean }) :=
  lookupNode_modifyPipeline_self s i _ d h

theorem lookupNode_bumpVV_self {s : EngineState} {i : Nat} {d : PipelineData}
    (h : lookupNode s i = some (Node.pipeline d)) :
    lookupNode (bumpVV s i) i =
      some (Node.pipeline { d with valueVersion := d.valueVersion + 1 }) :=
  lookupNode_modifyPipeline_self s i _ d h

/-- Forward evaluation of a successful `recomputeValue`: the result state is
the post-calculate state with the ambient consumer restored, the stale flag
cleared, and the cache either restored to the identical prior value (no
version bump) or set to the new value with `valueVersion` incremented. -/
theorem recompute_forward {s s3 : EngineState} {i fuel : Nat} {d : PipelineData}
    {vals : List Nat}
    (hl : lookupNode s i = some (Node.pipeline d)) (hcomp : d.cached ≠ CachedVal.computing)
    (hrun : step (Call.runCalcSteps d.calcFn.steps []) fuel (recomputeMid s i) = Res.ok vals s3) :
    step (Call.recomputeValue i) (fuel + 1) s =
      Res.ok () (if d.cached = CachedVal.val (d.calcFn.combine vals)
        then setCached (setStaleClean { s3 with activeConsumer := s.activeConsumer } i) i d.cached
        else bumpVV (setCached (setStaleClean { s3 with activeConsumer := s.activeConsumer } i) i
          (CachedVal.val (d.calcFn.combine vals))) i) := by
  simp only [step]
  rw [hl]
  dsimp only
  rw [if_neg hcomp, hrun]
  dsimp only
  by_cases heq : d.cached = CachedVal.val (d.calcFn.combine vals)
  · rw [if_pos heq, if_pos heq]
  · rw [if_neg heq, if_neg heq]

/-- Inversion of a successful `recomputeValue`. -/
theorem recompute_ok_inv {s s2 : EngineState} {i fuel : Nat} {d : PipelineData}
    (hl : lookupNode s i = some (Node.pipeline d))
    (hr : step (Call.recomputeValue i) (fuel + 1) s = Res.ok () s2) :
    ∃ vals s3, d.cached ≠ CachedVal.computing ∧
      step (Call.runCalcSteps d.calcFn.steps []) fuel (recomputeMid s i) = Res.ok vals s3 ∧
      s2 = (if d.cached = CachedVal.val (d.calcFn.combine vals)
        then setCached (setStaleClean { s3 with activeConsumer := s.activeConsumer } i) i d.cached
        else bumpVV (setCached (setStaleClean { s3 with activeConsumer := s.activeConsumer } i) i
          (CachedVal.val (d.calcFn.combine vals))) i) := by
  by_cases hcomp : d.cached = CachedVal.computing
  · exfalso
    simp only [step] at hr
    rw [hl] at hr
    dsimp only at hr
    rw [if_pos hcomp] at hr
    exact Res.noConfusion hr
  · cases hrun : step (Call.runCalcSteps d.calcFn.steps []) fuel (recomputeMid s i) with
    | out =>
      exfalso
      simp only [step] at hr
      rw [hl] at hr
      dsimp only at hr
      rw [if_neg hcomp, hrun] at hr
      exact Res.noConfusion hr
    | err e s3 =>
      exfalso
      simp only [step] at hr
      rw [hl] at hr
      dsimp only at hr
      rw [if_neg hcomp, hrun] at hr
      exact Res.noConfusion hr
    | ok vals s3 =>
      refine ⟨vals, s3, hcomp, rfl, ?_⟩
      have hfw := recompute_forward hl hcomp hrun
      rw [hfw] at hr
      injection hr with h1 h2
      exact h2.symm

/-- During a successful calculate of node `i`, node `i` itself stays in the
`COMPUTING` state and keeps its versions (its own re-entrant recompute would
have failed with the circularity error instead). -/
theorem runCalc_keeps_computing {s s3 : EngineState} {i fuel : Nat} {d : PipelineData}
    {steps : List CalcStep} {acc vals : List Nat}
    (hl : lookupNode s i = some (Node.pipeline d))
    (hrun : step (Call.runCalcSteps steps acc) fuel (recomputeMid s i) = Res.ok vals s3) :
    cachedOf? s3 i = some CachedVal.computing ∧
    vvOf s3 i = d.valueVersion ∧ tvOf s3 i = d.trackingVersion + 1 := by
  have hevo := evo_step_ok hrun
  obtain ⟨_, _, hf⟩ := hevo
  obtain ⟨hc, hv, ht⟩ := hf i (cachedOf?_recomputeMid_self hl)
  refine ⟨hc, ?_, ?_⟩
  · rw [hv, vvOf_recomputeMid]
    unfold vvOf
    rw [hl]
  · rw [ht, tvOf_recomputeMid_self hl]

/-- C3: if a recomputation's `calculate()` returns a value identical to the
prior cached value, the recomputation succeeds leaving `valueVersion`
unchanged, the prior value kept as the cached value, and the next read
returns that same value (touching only the edge maps). -/
theorem claim_C3_identity_result_keeps_version (s s3 : EngineState) (i fuel : Nat)
    (d : PipelineData) (w : Nat) (vals : List Nat)
    (hl : lookupNode s i = some (Node.pipeline d))
    (hw : d.cached = CachedVal.val w)
    (hrun : step (Call.runCalcSteps d.calcFn.steps []) fuel (recomputeMid s i) = Res.ok vals s3)
    (hid : d.calcFn.combine vals = w) :
    ∃ s2, step (Call.recomputeValue i) (fuel + 1) s = Res.ok () s2 ∧
      vvOf s2 i = vvOf s i ∧
      cachedOf? s2 i = some (CachedVal.val w) ∧
      (∀ f1, step (Call.getValue i) (f1 + 2) s2 = Res.ok w (producerAccessed s2 i)) := by
  have hcomp : d.cached ≠ CachedVal.computing := by
    rw [hw]
    intro h
    exact CachedVal.noConfusion h
  have heq : d.cached = CachedVal.val (d.calcFn.combine vals) := by
    rw [hid, hw]
  have hfw := recompute_forward hl hcomp hrun
  rw [if_pos heq] at hfw
  obtain ⟨hc3, hv3, ht3⟩ := runCalc_keeps_computing hl hrun
  have hl3 : ∃ d3, lookupNode s3 i = some (Node.pipeline d3) ∧ d3.valueVersion = d.valueVersion := by
    unfold cachedOf? at hc3
    unfold vvOf at hv3
    cases h : lookupNode s3 i with
    | none =>
      rw [h] at hc3
      exact absurd hc3 (by simp)
    | some n =>
      cases n with
      | value dd =>
        rw [h] at hc3
        exact absurd hc3 (by simp)
      | pipeline d3 =>
        rw [h] at hv3
        dsimp only at hv3
        exact ⟨d3, rfl, hv3⟩
  obtain ⟨d3, hl3, hd3v⟩ := hl3
  have l5 : lookupNode (setStaleClean { s3 with activeConsumer := s.activeConsumer } i) i =
      some (Node.pipeline { d3 with stale := StaleFlag.clean }) :=
    lookupNode_setStaleClean_self hl3
  have l6 : lookupNode (setCached (setStaleClean { s3 with activeConsumer := s.activeConsumer } i) i d.cached) i =
      some (Node.pipeline { d3 with stale := StaleFlag.clean, cached := d.cached }) :=
    lookupNode_setCached_self l5
  refine ⟨_, hfw, ?_, ?_, ?_⟩
  · unfold vvOf
    rw [l6, hl]
    exact hd3v
  · unfold cachedOf?
    rw [l6, hw]
  · intro f1
    have hca : cachedOf? (producerAccessed
        (setCached (setStaleClean { s3 with activeConsumer := s.activeConsumer } i) i d.cached) i) i =
        some (CachedVal.val w) := by
      rw [cachedOf?_producerAccessed]
      unfold cachedOf?
      rw [l6, hw]
    simp only [step]
    rw [l6]
    dsimp only
    rw [hca]

/-- Witness for C3: recomputing node 1 of `c3s` (whose calculate returns the
identical cached value 4) keeps `valueVersion` at 2 and the next read
returns 4. -/
theorem claim_C3_identity_result_keeps_version_witness :
    ∃ s2, step (Call.recomputeValue 1) 11 c3s = Res.ok () s2 ∧
      vvOf s2 1 = vvOf c3s 1 ∧
      cachedOf? s2 1 = some (CachedVal.val 4) ∧
      (∀ f1, step (Call.getValue 1) (f1 + 2) s2 = Res.ok 4 (producerAccessed s2 1)) :=
  claim_C3_identity_result_keeps_version c3s (recomputeMid c3s 1) 1 10
    ⟨[], [], 2, 1, StaleFlag.dirty, CachedVal.val 4, ⟨[], fun _ => 4⟩⟩ 4 [] rfl rfl rfl rfl

/-- Counterexample to C4 as stated: `mutateValue` with a mutator that leaves
the value unchanged is one of the engine operations, yet it increments the
leaf's `valueVersion` (1 to 2) while the identity-compared value (5) does not
change. -/
theorem claim_C4_counterexample_mutate_bumps_without_change :
    leafValOf (buildGraph [GNode.leaf 5]) 0 = some 5 ∧
    vvOf (buildGraph [GNode.leaf 5]) 0 = 1 ∧
    leafValOf (applyOps 10 [Op.mutate 0 (fun x => Except.ok x)] (buildGraph [GNode.leaf 5])) 0 = some 5 ∧
    vvOf (applyOps 10 [Op.mutate 0 (fun x => Except.ok x)] (buildGraph [GNode.leaf 5])) 0 = 2 :=
  ⟨rfl, rfl, rfl, rfl⟩

/-- C4 (amended): across every sequence of engine operations, `valueVersion`
and `trackingVersion` never decrease; `setValue` leaves the state untouched
on an identity-equal write and increments `valueVersion` by exactly one when
the value changes; a successful recomputation increments `trackingVersion` by
exactly one — already visible on the state `calculate()` runs on — and
increments `valueVersion` exactly when the cached value actually changed;
`mutateValue`, however, increments `valueVersion` unconditionally, even when
the mutator did not change the held value. -/
theorem claim_C4_versions_monotone_amended :
    (∀ (fuel : Nat) (ops1 ops2 : List Op) (s : EngineState) (j : Nat),
      vvOf (applyOps fuel ops1 s) j ≤ vvOf (applyOps fuel (ops1 ++ ops2) s) j ∧
      tvOf (applyOps fuel ops1 s) j ≤ tvOf (applyOps fuel (ops1 ++ ops2) s) j) ∧
    (∀ (s : EngineState) (i v : Nat) (d : ValueData) (fuel : Nat),
      lookupNode s i = some (Node.value d) →
      (v = d.value → step (Call.setValue i v) (fuel + 1) s = Res.ok () s) ∧
      (v ≠ d.value → vvOf (bumpLeaf s i v) i = vvOf s i + 1 ∧
        step (Call.setValue i v) (fuel + 1) s =
          step (Call.producerNotifyConsumers i) fuel (bumpLeaf s i v))) ∧
    (∀ (s s2 : EngineState) (i : Nat) (d : PipelineData) (fuel : Nat),
      lookupNode s i = some (Node.pipeline d) →
      step (Call.recomputeValue i) (fuel + 1) s = Res.ok () s2 →
      tvOf s2 i = d.trackingVersion + 1 ∧
      tvOf (recomputeMid s i) i = d.trackingVersion + 1 ∧
      (cachedOf? s2 i = some d.cached → vvOf s2 i = d.valueVersion) ∧
      (cachedOf? s2 i ≠ some d.cached → vvOf s2 i = d.valueVersion + 1)) ∧
    (∀ (s : EngineState) (i : Nat) (d : ValueData) (m : Nat → Except Nat Nat) (fuel : Nat) (v1 : Nat),
      lookupNode s i = some (Node.value d) → m d.value = Except.ok v1 →
      vvOf (bumpLeaf s i v1) i = vvOf s i + 1 ∧
      mutateValue i m fuel s = step (Call.producerNotifyConsumers i) fuel (bumpLeaf s i v1)) := by
  refine ⟨?_, ?_, ?_, ?_⟩
  · intro fuel ops1 ops2 s j
    rw [applyOps_append]
    exact (evo_applyOps fuel ops2 (applyOps fuel ops1 s)).2.1 j
  · intro s i v d fuel hl
    refine ⟨?_, fun hv => ⟨?_, ?_⟩⟩
    · intro hv
      simp only [step]
      rw [hl]
      dsimp only
      rw [if_pos hv]
    · rw [vvOf_bumpLeaf_self hl]
      unfold vvOf
      rw [hl]
    · simp only [step]
      rw [hl]
      dsimp only
      rw [if_neg hv]
  · intro s s2 i d fuel hl hr
    obtain ⟨vals, s3, hcomp, hrun, hs2⟩ := recompute_ok_inv hl hr
    obtain ⟨hc3, hv3, ht3⟩ := runCalc_keeps_computing hl hrun
    have hl3 : ∃ d3, lookupNode s3 i = some (Node.pipeline d3) ∧
        d3.valueVersion = d.valueVersion ∧ d3.trackingVersion = d.trackingVersion + 1 := by
      unfold cachedOf? at hc3
      unfold vvOf at hv3
      unfold tvOf tvOf? at ht3
      cases h : lookupNode s3 i with
      | none =>
        rw [h] at hc3
        exact absurd hc3 (by simp)
      | some n =>
        cases n with
        | value dd =>
          rw [h] at hc3
          exact absurd hc3 (by simp)
        | pipeline d3 =>
          rw [h] at hv3 ht3
          dsimp only at hv3 ht3
          exact ⟨d3, rfl, hv3, ht3⟩
    obtain ⟨d3, hl3, hd3v, hd3t⟩ := hl3
    have l5 : lookupNode (setStaleClean { s3 with activeConsumer := s.activeConsumer } i) i =
        some (Node.pipeline { d3 with stale := StaleFlag.clean }) :=
      lookupNode_setStaleClean_self hl3
    subst hs2
    by_cases heq : d.cached = CachedVal.val (d.calcFn.combine vals)
    · rw [if_pos heq]
      have l6 := @lookupNode_setCached_self _ _ d.cached _ l5
      refine ⟨?_, tvOf_recomputeMid_self hl, ?_, ?_⟩
      · unfold tvOf tvOf?
        rw [l6]
        exact hd3t
      · intro _
        unfold vvOf
        rw [l6]
        exact hd3v
      · intro hne
        exfalso
        apply hne
        unfold cachedOf?
        rw [l6]
    · rw [if_neg heq]
      have l6 := @lookupNode_setCached_self _ _ (CachedVal.val (d.calcFn.combine vals)) _ l5
      have l7 := lookupNode_bumpVV_self l6
      refine ⟨?_, tvOf_recomputeMid_self hl, ?_, ?_⟩
      · unfold tvOf tvOf?
        rw [l7]
        exact hd3t
      · intro habs
        exfalso
        unfold cachedOf? at habs
        rw [l7] at habs
        dsimp only at habs
        exact heq (Option.some.inj habs).symm
      · intro _
        unfold vvOf
        rw [l7]
        dsimp only
        rw [hd3v]
  · intro s i d m fuel v1 hl hm
    constructor
    · rw [vvOf_bumpLeaf_self hl]
      unfold vvOf
      rw [hl]
    · unfold mutateValue
      rw [hl]
      dsimp only
      rw [hm]
      rfl

/-- Witness for C4 (amended): a concrete monotone prefix comparison and a
concrete identity-preserving mutate on a fresh one-leaf graph. -/
theorem claim_C4_versions_monotone_amended_witness :
    (vvOf (applyOps 20 [Op.read 0] (buildGraph [GNode.leaf 0])) 0 ≤
      vvOf (applyOps 20 ([Op.read 0] ++ [Op.set 0 1]) (buildGraph [GNode.leaf 0])) 0 ∧
      tvOf (applyOps 20 [Op.read 0] (buildGraph [GNode.leaf 0])) 0 ≤
      tvOf (applyOps 20 ([Op.read 0] ++ [Op.set 0 1]) (buildGraph [GNode.leaf 0])) 0) ∧
    (vvOf (bumpLeaf (buildGraph [GNode.leaf 0]) 0 0) 0 = vvOf (buildGraph [GNode.leaf 0]) 0 + 1 ∧
      mutateValue 0 (fun x => Except.ok x) 20 (buildGraph [GNode.leaf 0]) =
        step (Call.producerNotifyConsumers 0) 20 (bumpLeaf (buildGraph [GNode.leaf 0]) 0 0)) :=
  ⟨claim_C4_versions_monotone_amended.1 20 [Op.read 0] [Op.set 0 1] (buildGraph [GNode.leaf 0]) 0,
   claim_C4_versions_monotone_amended.2.2.2 (buildGraph [GNode.leaf 0]) 0 ⟨[], 1, 0⟩
     (fun x => Except.ok x) 20 0 rfl rfl⟩

/-- C9: (a) every engine call — including a recomputation whose `calculate()`
throws — exits with the ambient active-consumer slot equal to what it was on
entry; (b) the state a recomputation runs its `calculate()` on has the node
itself installed as the ambient active consumer; (c) consequently the slot is
`none` at every quiescent point between top-level operations when it started
as `none`. -/
theorem claim_C9_active_consumer_save_restore :
    (∀ (fuel : Nat) (c : Call) (s s1 : EngineState),
      ((∃ a, step c fuel s = Res.ok a s1) ∨ (∃ e, step c fuel s = Res.err e s1)) →
      s1.activeConsumer = s.activeConsumer) ∧
    (∀ (s : EngineState) (i : Nat), (recomputeMid s i).activeConsumer = some i) ∧
    (∀ (fuel : Nat) (ops : List Op) (s : EngineState),
      s.activeConsumer = none → (applyOps fuel ops s).activeConsumer = none) := by
  refine ⟨?_, ?_, ?_⟩
  · intro fuel c s s1 h
    rcases h with ⟨a, h⟩ | ⟨e, h⟩
    · exact (evo_step_ok h).1
    · exact (evo_step_err h).1
  · intro s i
    rfl
  · intro fuel ops s h
    rw [(evo_applyOps fuel ops s).1, h]

/-- Witness for C9: a concrete read-then-write sequence on a fresh one-leaf
graph ends with the ambient slot still `none`, and a concrete `recomputeMid`
installs the node as the ambient consumer. -/
theorem claim_C9_active_consumer_save_restore_witness :
    (applyOps 20 [Op.read 0, Op.set 0 1] (buildGraph [GNode.leaf 0])).activeConsumer = none ∧
    (recomputeMid (buildGraph [GNode.node [] (fun _ => 1)]) 0).activeConsumer = some 0 :=
  ⟨claim_C9_active_consumer_save_restore.2.2 20 [Op.read 0, Op.set 0 1]
      (buildGraph [GNode.leaf 0]) rfl,
   claim_C9_active_consumer_save_restore.2.1 (buildGraph [GNode.node [] (fun _ => 1)]) 0⟩

/-- Counterexample to C6 as stated: `c6mid` is exactly the state reached
inside the read of node 1 of `c6s` after the read step; node 1 is in the
`COMPUTING` state there, yet delivering `notify` to it returns silently
(its stale flag is not `false`, so the early idempotence return fires before
the ChangedWhileCalculating check), and the enclosing read completes
successfully instead of failing. -/
theorem claim_C6_counterexample_notify_while_computing_is_silent :
    step (Call.runCalcSteps [CalcStep.readStep 0] []) 25 (recomputeMid c6s 1) =
      Res.ok [5] c6mid ∧
    cachedOf? c6mid 1 = some CachedVal.computing ∧
    step (Call.notify 1 (some 0)) 20 c6mid = Res.ok () c6mid ∧
    readVal 1 30 c6s = some 5 :=
  ⟨rfl, rfl, rfl, rfl⟩

/-- C6 (amended): a `notify` delivered to a computed node in the `COMPUTING`
state returns silently whenever the node's stale flag is not `false` — which
is always the case during its own `calculate()` — because the idempotence
check precedes the `COMPUTING` check; the ChangedWhileCalculating error is
raised only in the complementary configuration, a `COMPUTING` node whose
stale flag is `false`. -/
theorem claim_C6_amended_notify_guard_order (s : EngineState) (i : Nat) (d : PipelineData)
    (notifier : Option Nat) (fuel : Nat)
    (hl : lookupNode s i = some (Node.pipeline d)) (hc : d.cached = CachedVal.computing) :
    (d.stale ≠ StaleFlag.clean → step (Call.notify i notifier) (fuel + 1) s = Res.ok () s) ∧
    (d.stale = StaleFlag.clean →
      step (Call.notify i notifier) (fuel + 1) s = Res.err EngErr.changedWhileCalculating s) := by
  constructor
  · intro hst
    simp only [step]
    rw [hl]
    dsimp only
    cases h : d.stale with
    | clean => exact absurd h hst
    | dirty => rfl
    | producer q => rfl
  · intro hst
    simp only [step]
    rw [hl]
    dsimp only
    rw [hst]
    dsimp only
    rw [if_pos hc]

/-- Witness for the amended C6, on `c6mid` (stale ≠ false: silent) and on a
variant with a clean stale flag (the error fires). -/
theorem claim_C6_amended_notify_guard_order_witness :
    step (Call.notify 1 (some 0)) 21 c6mid = Res.ok () c6mid ∧
    step (Call.notify 0 none) 21
        ⟨[Node.pipeline ⟨[], [], 1, 1, StaleFlag.clean, CachedVal.computing, ⟨[], fun _ => 0⟩⟩], none, 0⟩ =
      Res.err EngErr.changedWhileCalculating
        ⟨[Node.pipeline ⟨[], [], 1, 1, StaleFlag.clean, CachedVal.computing, ⟨[], fun _ => 0⟩⟩], none, 0⟩ :=
  ⟨(claim_C6_amended_notify_guard_order c6mid 1
      ⟨[], [some (0, 1)], 1, 2, StaleFlag.dirty, CachedVal.computing,
        ⟨[CalcStep.readStep 0, CalcStep.writeStep 0 7], fun l => l.headD 0⟩⟩
      (some 0) 20 rfl rfl).1 (by decide),
   (claim_C6_amended_notify_guard_order
      ⟨[Node.pipeline ⟨[], [], 1, 1, StaleFlag.clean, CachedVal.computing, ⟨[], fun _ => 0⟩⟩], none, 0⟩
      0 ⟨[], [], 1, 1, StaleFlag.clean, CachedVal.computing, ⟨[], fun _ => 0⟩⟩
      none 20 rfl rfl).2 rfl⟩

theorem LMap.get_eq_none_of_not_mem {K V : Type} [DecidableEq K] (m : LMap K V) (k : K)
    (h : k ∉ (LMap.toTuples m).map Prod.fst) : LMap.get m k = none := by
  induction m with
  | nil => rfl
  | cons sl rest ih =>
    cases sl with
    | none =>
      show LMap.get rest k = none
      exact ih h
    | some kv =>
      obtain ⟨k0, v0⟩ := kv
      have hne : k0 ≠ k := by
        intro e
        apply h
        subst e
        show k0 ∈ (((k0, v0) :: rest.filterMap id).map Prod.fst)
        exact List.mem_cons_self _ _
      show (if k0 = k then some v0 else LMap.get rest k) = none
      rw [if_neg hne]
      apply ih
      intro hmem
      apply h
      show k ∈ (((k0, v0) :: rest.filterMap id).map Prod.fst)
      exact List.mem_cons_of_mem _ hmem

theorem LMap.get_delete_self {K V : Type} [DecidableEq K] (m : LMap K V) (k : K)
    (h : ((LMap.toTuples m).map Prod.fst).Nodup) : LMap.get (LMap.delete m k) k = none := by
  induction m with
  | nil => rfl
  | cons sl rest ih =>
    cases sl with
    | none =>
      show LMap.get (none :: LMap.delete rest k) k = none
      show LMap.get (LMap.delete rest k) k = none
      exact ih h
    | some kv =>
      obtain ⟨k0, v0⟩ := kv
      have h1 : ((LMap.toTuples (some (k0, v0) :: rest)).map Prod.fst) = k0 :: (LMap.toTuples rest).map Prod.fst := by
        simp [LMap.toTuples]
      rw [h1] at h
      by_cases hk : k0 = k
      · show LMap.get (if k0 = k then none :: rest else some (k0, v0) :: LMap.delete rest k) k = none
        rw [if_pos hk]
        show LMap.get rest k = none
        apply LMap.get_eq_none_of_not_mem
        subst hk
        exact (List.nodup_cons.1 h).1
      · show LMap.get (if k0 = k then none :: rest else some (k0, v0) :: LMap.delete rest k) k = none
        rw [if_neg hk]
        show (if k0 = k then some v0 else LMap.get (LMap.delete rest k) k) = none
        rw [if_neg hk]
        exact ih (List.nodup_cons.1 h).2

theorem producersOf_modifyConsumers (s : EngineState) (i : Nat)
    (f : LMap Nat Nat → LMap Nat Nat) (j : Nat) :
    producersOf (modifyConsumers s i f) j = producersOf s j := by
  rcases eq_or_ne j i with rfl | hne
  · cases hl : lookupNode s j with
    | none => rw [modifyConsumers_none f hl]
    | some n =>
      cases n with
      | pipeline d =>
        unfold producersOf
        rw [lookupNode_modifyConsumers_pipeline f hl, hl]
      | value d =>
        unfold producersOf
        rw [lookupNode_modifyConsumers_value f hl, hl]
  · exact producersOf_congr (lookupNode_modifyConsumers_ne s i j f hne)

theorem consumersOf_modifyPipeline (s : EngineState) (i : Nat) (f : PipelineData → PipelineData)
    (h : ∀ d, (f d).consumers = d.consumers) (j : Nat) :
    consumersOf (modifyPipeline s i f) j = consumersOf s j := by
  rcases eq_or_ne j i with rfl | hne
  · cases hl : lookupNode s j with
    | none => rw [modifyPipeline_none f hl]
    | some n =>
      cases n with
      | value d => rw [modifyPipeline_value f hl]
      | pipeline d =>
        unfold consumersOf
        rw [lookupNode_modifyPipeline_self s j f d hl, hl]
        exact h d
  · exact consumersOf_congr (lookupNode_modifyPipeline_ne s i j f hne)

theorem consumersOf_modifyConsumers_self {s : EngineState} {i : Nat} {n : Node}
    (f : LMap Nat Nat → LMap Nat Nat) (hl : lookupNode s i = some n) :
    consumersOf (modifyConsumers s i f) i = f (consumersOf s i) := by
  cases n with
  | pipeline d =>
    unfold consumersOf
    rw [lookupNode_modifyConsumers_pipeline f hl, hl]
  | value d =>
    unfold consumersOf
    rw [lookupNode_modifyConsumers_value f hl, hl]

/-- C8: during dependency polling, an entry for a producer other than the
remembered skip-producer whose `consumers` map does not carry this consumer's
current `trackingVersion` is a dead edge: the loop removes it from both maps
(`removeEdge`) and moves on to the remaining entries, so a dead edge never by
itself makes the poll report a changed dependency; whenever the poll does
return `true`, it is because `producerPollStatus` reported a real change for
some non-skipped entry that did carry the consumer's current
`trackingVersion`. -/
theorem claim_C8_dead_edges_pruned_not_changed :
    (∀ (s : EngineState) (c : Nat) (skip : Option Nat) (p w : Nat)
        (rest : List (Nat × Nat)) (fuel : Nat),
      skip ≠ some p →
      LMap.get (consumersOf s p) c ≠ some (tvOf s c) →
      step (Call.pollLoop c skip ((p, w) :: rest)) (fuel + 1) s =
        step (Call.pollLoop c skip rest) fuel (removeEdge s p c)) ∧
    (∀ (s : EngineState) (p c : Nat) (dc : PipelineData) (np : Node),
      lookupNode s c = some (Node.pipeline dc) → lookupNode s p = some np →
      (((LMap.toTuples dc.producers).map Prod.fst).Nodup →
        LMap.get (producersOf (removeEdge s p c) c) p = none) ∧
      (((LMap.toTuples (consumersOf s p)).map Prod.fst).Nodup →
        LMap.get (consumersOf (removeEdge s p c) p) c = none)) ∧
    (∀ (fuel : Nat) (s s1 : EngineState) (c : Nat) (skip : Option Nat)
        (entries : List (Nat × Nat)),
      step (Call.pollLoop c skip entries) fuel s = Res.ok true s1 →
      ∃ p w s0 f0, (p, w) ∈ entries ∧ skip ≠ some p ∧
        LMap.get (consumersOf s0 p) c = some (tvOf s0 c) ∧
        step (Call.producerPollStatus p (some w)) f0 s0 = Res.ok true s1) := by
  refine ⟨?_, ?_, ?_⟩
  · intro s c skip p w rest fuel hskip hat
    simp only [step]
    rw [if_neg hskip, if_neg hat]
  · intro s p c dc np hlc hlp
    constructor
    · intro hnd
      unfold removeEdge
      rw [producersOf_modifyConsumers]
      unfold producersOf
      rw [lookupNode_modifyPipeline_self s c _ dc hlc]
      exact LMap.get_delete_self dc.producers p hnd
    · intro hnd
      unfold removeEdge
      have hcons : consumersOf (modifyPipeline s c
          (fun d => { d with producers := LMap.delete d.producers p })) p = consumersOf s p :=
        consumersOf_modifyPipeline s c
          (fun d => { d with producers := LMap.delete d.producers p }) (fun d => rfl) p
      have hlp1 : ∃ n1, lookupNode (modifyPipeline s c
          (fun d => { d with producers := LMap.delete d.producers p })) p = some n1 := by
        rcases eq_or_ne p c with rfl | hne
        · exact ⟨_, lookupNode_modifyPipeline_self s p _ dc hlc⟩
        · rw [lookupNode_modifyPipeline_ne s c p _ hne]
          exact ⟨np, hlp⟩
      obtain ⟨n1, hlp1⟩ := hlp1
      rw [consumersOf_modifyConsumers_self _ hlp1, hcons]
      exact LMap.get_delete_self (consumersOf s p) c hnd
  · intro fuel
    induction fuel with
    | zero =>
      intro s s1 c skip entries hr
      exact Res.noConfusion hr
    | succ fuel ih =>
      intro s s1 c skip entries hr
      cases entries with
      | nil =>
        simp only [step] at hr
        injection hr with h1 h2
        exact Bool.noConfusion h1
      | cons e rest =>
        obtain ⟨p0, w0⟩ := e
        simp only [step] at hr
        by_cases hskip : skip = some p0
        · rw [if_pos hskip] at hr
          obtain ⟨p, w, s0, f0, hmem, h2, h3, h4⟩ := ih s s1 c skip rest hr
          exact ⟨p, w, s0, f0, List.mem_cons_of_mem _ hmem, h2, h3, h4⟩
        · rw [if_neg hskip] at hr
          by_cases hat : LMap.get (consumersOf s p0) c = some (tvOf s c)
          · rw [if_pos hat] at hr
            cases hpp : step (Call.producerPollStatus p0 (some w0)) fuel s with
            | ok b s2 =>
              rw [hpp] at hr
              cases b with
              | true =>
                injection hr with h1 h2
                subst h2
                exact ⟨p0, w0, s, fuel, List.mem_cons_self _ _, hskip, hat, hpp⟩
              | false =>
                obtain ⟨p, w, s0, f0, hmem, h2, h3, h4⟩ := ih s2 s1 c skip rest hr
                exact ⟨p, w, s0, f0, List.mem_cons_of_mem _ hmem, h2, h3, h4⟩
            | err e2 s2 =>
              rw [hpp] at hr
              exact Res.noConfusion hr
            | out =>
              rw [hpp] at hr
              exact Res.noConfusion hr
          · rw [if_neg hat] at hr
            obtain ⟨p, w, s0, f0, hmem, h2, h3, h4⟩ := ih (removeEdge s p0 c) s1 c skip rest hr
            exact ⟨p, w, s0, f0, List.mem_cons_of_mem _ hmem, h2, h3, h4⟩

/-- Witness for C8: on `c8s`, polling node 1's single recorded producer 0
prunes the dead edge from both maps and reports no change. -/
theorem claim_C8_dead_edges_pruned_not_changed_witness :
    step (Call.pollLoop 1 none [(0, 1)]) 21 c8s =
      step (Call.pollLoop 1 none []) 20 (removeEdge c8s 0 1) ∧
    LMap.get (producersOf (removeEdge c8s 0 1) 1) 0 = none ∧
    LMap.get (consumersOf (removeEdge c8s 0 1) 0) 1 = none ∧
    step (Call.pollLoop 1 none [(0, 1)]) 21 c8s = Res.ok false (removeEdge c8s 0 1) :=
  ⟨claim_C8_dead_edges_pruned_not_changed.1 c8s 1 none 0 1 [] 20 (by decide) (by decide),
   (claim_C8_dead_edges_pruned_not_changed.2.1 c8s 0 1
      ⟨[], [some (0, 1)], 1, 7, StaleFlag.dirty, CachedVal.val 0, ⟨[], fun _ => 0⟩⟩
      (Node.value ⟨[some (1, 5)], 3, 9⟩) rfl rfl).1 (by decide),
   (claim_C8_dead_edges_pruned_not_changed.2.1 c8s 0 1
      ⟨[], [some (0, 1)], 1, 7, StaleFlag.dirty, CachedVal.val 0, ⟨[], fun _ => 0⟩⟩
      (Node.value ⟨[some (1, 5)], 3, 9⟩) rfl rfl).2 (by decide),
   rfl⟩

theorem calcCount_producerAccessed (s : EngineState) (i : Nat) :
    (producerAccessed s i).calcCount = s.calcCount := by
  unfold producerAccessed
  cases s.activeConsumer with
  | none => rfl
  | some c =>
    dsimp only
    rw [calcCount_modifyPipeline, calcCount_modifyConsumers]

theorem leafValOf_modifyPipeline {s : EngineState} {i : Nat} (f : PipelineData → PipelineData)
    (j : Nat) : leafValOf (modifyPipeline s i f) j = leafValOf s j := by
  rcases eq_or_ne j i with rfl | hne
  · cases hl : lookupNode s j with
    | none => rw [modifyPipeline_none f hl]
    | some n =>
      cases n with
      | value d => rw [modifyPipeline_value f hl]
      | pipeline d =>
        unfold leafValOf
        rw [lookupNode_modifyPipeline_self s j f d hl, hl]
  · exact leafValOf_congr (lookupNode_modifyPipeline_ne s i j f hne)

theorem leafValOf_modifyConsumers {s : EngineState} {i : Nat} (f : LMap Nat Nat → LMap Nat Nat)
    (j : Nat) : leafValOf (modifyConsumers s i f) j = leafValOf s j := by
  rcases eq_or_ne j i with rfl | hne
  · cases hl : lookupNode s j with
    | none => rw [modifyConsumers_none f hl]
    | some n =>
      cases n with
      | pipeline d =>
        unfold leafValOf
        rw [lookupNode_modifyConsumers_pipeline f hl, hl]
      | value d =>
        unfold leafValOf
        rw [lookupNode_modifyConsumers_value f hl, hl]
  · exact leafValOf_congr (lookupNode_modifyConsumers_ne s i j f hne)

theorem leafValOf_producerAccessed (s : EngineState) (i : Nat) (j : Nat) :
    leafValOf (producerAccessed s i) j = leafValOf s j := by
  unfold producerAccessed
  cases s.activeConsumer with
  | none => rfl
  | some c =>
    dsimp only
    refine Eq.trans (leafValOf_modifyPipeline _ j) (leafValOf_modifyConsumers _ j)

theorem readResult_producerAccessed (s : EngineState) (i n : Nat) :
    readResult (producerAccessed s i) n = readResult s n := by
  unfold readResult
  rw [cachedOf?_producerAccessed]

/-- A successful recomputation leaves the recomputed node's stale flag clean. -/
theorem recompute_ok_stale {s s1 : EngineState} {i fuel : Nat}
    (hr : step (Call.recomputeValue i) fuel s = Res.ok () s1) :
    ∀ d1, lookupNode s1 i = some (Node.pipeline d1) → d1.stale = StaleFlag.clean := by
  cases fuel with
  | zero => exact Res.noConfusion hr
  | succ f =>
    cases hl : lookupNode s i with
    | none =>
      exfalso
      have hbad : step (Call.recomputeValue i) (f + 1) s = Res.err EngErr.badNode s := by
        simp only [step]
        rw [hl]
      rw [hbad] at hr
      exact Res.noConfusion hr
    | some nn =>
      cases nn with
      | value d =>
        exfalso
        have hbad : step (Call.recomputeValue i) (f + 1) s = Res.err EngErr.badNode s := by
          simp only [step]
          rw [hl]
        rw [hbad] at hr
        exact Res.noConfusion hr
      | pipeline d =>
        obtain ⟨vals, s3, hcomp, hrun, hs1⟩ := recompute_ok_inv hl hr
        obtain ⟨hc3, hv3, ht3⟩ := runCalc_keeps_computing hl hrun
        have hl3 : ∃ d3, lookupNode s3 i = some (Node.pipeline d3) := by
          unfold cachedOf? at hc3
          cases h : lookupNode s3 i with
          | none =>
            rw [h] at hc3
            exact absurd hc3 (by simp)
          | some n2 =>
            cases n2 with
            | value dd =>
              rw [h] at hc3
              exact absurd hc3 (by simp)
            | pipeline d3 => exact ⟨d3, rfl⟩
        obtain ⟨d3, hl3⟩ := hl3
        have l5 : lookupNode (setStaleClean { s3 with activeConsumer := s.activeConsumer } i) i =
            some (Node.pipeline { d3 with stale := StaleFlag.clean }) :=
          lookupNode_setStaleClean_self hl3
        subst hs1
        by_cases heq : d.cached = CachedVal.val (d.calcFn.combine vals)
        · rw [if_pos heq]
          have l6 := @lookupNode_setCached_self _ _ d.cached _ l5
          intro d1 h1
          rw [l6] at h1
          obtain h2 := Node.pipeline.inj (Option.some.inj h1)
          rw [← h2]
        · rw [if_neg heq]
          have l6 := @lookupNode_setCached_self _ _ (CachedVal.val (d.calcFn.combine vals)) _ l5
          have l7 := lookupNode_bumpVV_self l6
          intro d1 h1
          rw [l7] at h1
          obtain h2 := Node.pipeline.inj (Option.some.inj h1)
          rw [← h2]

/-- A successful `checkForActuallyChangedValue` leaves the node's stale flag
clean (when the node is a computed node at all). -/
theorem checkFor_ok_stale {s s1 : EngineState} {n fuel : Nat}
    (hr : step (Call.checkForActuallyChangedValue n) fuel s = Res.ok () s1) :
    ∀ d1, lookupNode s1 n = some (Node.pipeline d1) → d1.stale = StaleFlag.clean := by
  cases fuel with
  | zero => exact Res.noConfusion hr
  | succ f =>
    simp only [step] at hr
    cases hl : lookupNode s n with
    | none =>
      rw [hl] at hr
      dsimp only at hr
      injection hr with h1 h2
      subst h2
      intro d1 h1
      rw [hl] at h1
      exact Option.noConfusion h1
    | some nn =>
      cases nn with
      | value d =>
        rw [hl] at hr
        dsimp only at hr
        injection hr with h1 h2
        subst h2
        intro d1 h1
        rw [hl] at h1
        exact absurd h1 (by simp)
      | pipeline d =>
        rw [hl] at hr
        dsimp only at hr
        cases hst : d.stale with
        | clean =>
          rw [hst] at hr
          dsimp only at hr
          injection hr with h1 h2
          subst h2
          intro d1 h1
          rw [hl] at h1
          obtain h3 := Node.pipeline.inj (Option.some.inj h1)
          rw [← h3]
          exact hst
        | dirty =>
          rw [hst] at hr
          dsimp only at hr
          cases hc : d.cached with
          | unset =>
            rw [hc] at hr
            dsimp only at hr
            exact recompute_ok_stale hr
          | computing =>
            rw [hc] at hr
            dsimp only at hr
            exact recompute_ok_stale hr
          | val w =>
            rw [hc] at hr
            dsimp only at hr
            cases hp : step (Call.consumerPollValueStatus n (staleHint StaleFlag.dirty)) f s with
            | ok b s2 =>
              rw [hp] at hr
              cases b with
              | true =>
                dsimp only at hr
                exact recompute_ok_stale hr
              | false =>
                dsimp only at hr
                injection hr with h1 h2
                subst h2
                intro d1 h1
                cases hl2 : lookupNode s2 n with
                | none =>
                  rw [setStaleClean, modifyPipeline_none _ hl2] at h1
                  rw [hl2] at h1
                  exact Option.noConfusion h1
                | some n2 =>
                  cases n2 with
                  | value dd =>
                    rw [setStaleClean, modifyPipeline_value _ hl2] at h1
                    rw [hl2] at h1
                    exact absurd h1 (by simp)
                  | pipeline d2 =>
                    rw [lookupNode_setStaleClean_self hl2] at h1
                    obtain h3 := Node.pipeline.inj (Option.some.inj h1)
                    rw [← h3]
            | err e s2 =>
              rw [hp] at hr
              exact Res.noConfusion hr
            | out =>
              rw [hp] at hr
              exact Res.noConfusion hr
        | producer q =>
          rw [hst] at hr
          dsimp only at hr
          cases hc : d.cached with
          | unset =>
            rw [hc] at hr
            dsimp only at hr
            exact recompute_ok_stale hr
          | computing =>
            rw [hc] at hr
            dsimp only at hr
            exact recompute_ok_stale hr
          | val w =>
            rw [hc] at hr
            dsimp only at hr
            cases hp : step (Call.consumerPollValueStatus n (staleHint (StaleFlag.producer q))) f s with
            | ok b s2 =>
              rw [hp] at hr
              cases b with
              | true =>
                dsimp only at hr
                exact recompute_ok_stale hr
              | false =>
                dsimp only at hr
                injection hr with h1 h2
                subst h2
                intro d1 h1
                cases hl2 : lookupNode s2 n with
                | none =>
                  rw [setStaleClean, modifyPipeline_none _ hl2] at h1
                  rw [hl2] at h1
                  exact Option.noConfusion h1
                | some n2 =>
                  cases n2 with
                  | value dd =>
                    rw [setStaleClean, modifyPipeline_value _ hl2] at h1
                    rw [hl2] at h1
                    exact absurd h1 (by simp)
                  | pipeline d2 =>
                    rw [lookupNode_setStaleClean_self hl2] at h1
                    obtain h3 := Node.pipeline.inj (Option.some.inj h1)
                    rw [← h3]
            | err e s2 =>
              rw [hp] at hr
              exact Res.noConfusion hr
            | out =>
              rw [hp] at hr
              exact Res.noConfusion hr

/-- `checkForActuallyChangedValue` is an immediate no-op when the node's
stale flag is already clean (or the node is not computed at all). -/
theorem checkFor_noop {s : EngineState} {n : Nat} (fuel : Nat)
    (h : ∀ d1, lookupNode s n = some (Node.pipeline d1) → d1.stale = StaleFlag.clean) :
    step (Call.checkForActuallyChangedValue n) (fuel + 1) s = Res.ok () s := by
  simp only [step]
  cases hl : lookupNode s n with
  | none => rfl
  | some nn =>
    cases nn with
    | value d => rfl
    | pipeline d =>
      dsimp only
      rw [h d hl]

/-- Inversion of a successful read. -/
theorem getValue_ok_inv {s s1 : EngineState} {n v : Nat} {fuel : Nat}
    (hr : step (Call.getValue n) fuel s = Res.ok v s1) :
    (∃ d, lookupNode s n = some (Node.value d) ∧ v = d.value ∧ s1 = producerAccessed s n) ∨
    (∃ f1 s0 d0, fuel = f1 + 1 ∧ lookupNode s n = some (Node.pipeline d0) ∧
      step (Call.checkForActuallyChangedValue n) f1 s = Res.ok () s0 ∧
      s1 = producerAccessed s0 n ∧ v = readResult s0 n) := by
  cases fuel with
  | zero => exact Res.noConfusion hr
  | succ f =>
    simp only [step] at hr
    cases hl : lookupNode s n with
    | none =>
      rw [hl] at hr
      exact Res.noConfusion hr
    | some nn =>
      cases nn with
      | value d =>
        rw [hl] at hr
        injection hr with h1 h2
        exact Or.inl ⟨d, rfl, h1.symm, h2.symm⟩
      | pipeline d =>
        rw [hl] at hr
        dsimp only at hr
        cases hcf : step (Call.checkForActuallyChangedValue n) f s with
        | ok a s0 =>
          rw [hcf] at hr
          dsimp only at hr
          refine Or.inr ⟨f, s0, d, rfl, rfl, ?_, ?_, ?_⟩
          · cases a
            exact hcf
          · cases hc : cachedOf? (producerAccessed s0 n) n with
            | none =>
              rw [hc] at hr
              injection hr with h1 h2
              exact h2.symm
            | some cv =>
              cases cv with
              | unset =>
                rw [hc] at hr
                injection hr with h1 h2
                exact h2.symm
              | computing =>
                rw [hc] at hr
                injection hr with h1 h2
                exact h2.symm
              | val w =>
                rw [hc] at hr
                injection hr with h1 h2
                exact h2.symm
          · have hrr : readResult s0 n = readResult (producerAccessed s0 n) n :=
              (readResult_producerAccessed s0 n n).symm
            rw [hrr]
            unfold readResult
            cases hc : cachedOf? (producerAccessed s0 n) n with
            | none =>
              rw [hc] at hr
              injection hr with h1 h2
              exact h1.symm
            | some cv =>
              cases cv with
              | unset =>
                rw [hc] at hr
                injection hr with h1 h2
                exact h1.symm
              | computing =>
                rw [hc] at hr
                injection hr with h1 h2
                exact h1.symm
              | val w =>
                rw [hc] at hr
                injection hr with h1 h2
                exact h1.symm
        | err e s0 =>
          rw [hcf] at hr
          exact Res.noConfusion hr
        | out =>
          rw [hcf] at hr
          exact Res.noConfusion hr

/-- Counterexample to C7 as stated: between the two reads of node 2 the leaf
values are unchanged (0 and 0 at both read points), yet the second read
performs one `calculate()` invocation (the version counters moved, so polling
reports a change and the node recomputes — obtaining the same value). -/
theorem claim_C7_counterexample_same_leaf_values_one_calc :
    readVal 2 40 (buildGraph c7g) = some 0 ∧
    leafValOf c7s1 0 = some 0 ∧ leafValOf c7s1 1 = some 0 ∧
    leafValOf c7s3 0 = some 0 ∧ leafValOf c7s3 1 = some 0 ∧
    c7s1.calcCount = 1 ∧ c7s3.calcCount = 1 ∧
    readVal 2 40 c7s3 = some 0 ∧
    (stateOf (step (Call.getValue 2) 40 c7s3) c7s3).calcCount = 2 :=
  ⟨rfl, rfl, rfl, rfl, rfl, rfl, rfl, rfl, rfl⟩

/-- C7 (amended): a `setValue` that writes the identity-equal current value
leaves the state entirely unchanged, and after any successful read of a node,
an immediately following read of the same node performs zero `calculate()`
invocations; the original claim fails when intervening writes change a leaf
and change it back, because version counters advance monotonically (see the
counterexample). -/
theorem claim_C7_amended_second_read_zero_calcs :
    (∀ (s : EngineState) (i v : Nat) (d : ValueData) (fuel : Nat),
      lookupNode s i = some (Node.value d) → v = d.value →
      step (Call.setValue i v) (fuel + 1) s = Res.ok () s) ∧
    (∀ (s s1 s2 : EngineState) (n v v2 : Nat) (fuel f1 : Nat),
      step (Call.getValue n) fuel s = Res.ok v s1 →
      step (Call.getValue n) f1 s1 = Res.ok v2 s2 →
      s2.calcCount = s1.calcCount) := by
  constructor
  · intro s i v d fuel hl hv
    simp only [step]
    rw [hl]
    dsimp only
    rw [if_pos hv]
  · intro s s1 s2 n v v2 fuel f1 h1 h2
    rcases getValue_ok_inv h2 with ⟨d1, hl1, hv2, hs2⟩ | ⟨f2, s0', d0', hf, hl1, hcf', hs2, hv2⟩
    · rw [hs2]
      exact calcCount_producerAccessed s1 n
    · have hclean : ∀ dd, lookupNode s1 n = some (Node.pipeline dd) → dd.stale = StaleFlag.clean := by
        rcases getValue_ok_inv h1 with ⟨d0, hl0, _, hs1⟩ | ⟨f0, s00, d00, _, hl00s, hcf0, hs1, _⟩
        · intro dd hdd
          exfalso
          have hnone : staleOf? s1 n = none := by
            rw [hs1, staleOf?_producerAccessed]
            unfold staleOf?
            rw [hl0]
          have hsome : staleOf? s1 n = some dd.stale := by
            unfold staleOf?
            rw [hdd]
          rw [hnone] at hsome
          exact Option.noConfusion hsome
        · intro dd hdd
          have hchain : staleOf? s00 n = some dd.stale := by
            have e1 : staleOf? s1 n = staleOf? s00 n := by
              rw [hs1]
              exact staleOf?_producerAccessed s00 n n
            have e2 : staleOf? s1 n = some dd.stale := by
              unfold staleOf?
              rw [hdd]
            rw [e1] at e2
            exact e2
          unfold staleOf? at hchain
          cases hl00 : lookupNode s00 n with
          | none =>
            rw [hl00] at hchain
            exact Option.noConfusion hchain
          | some n2 =>
            cases n2 with
            | value ddv =>
              rw [hl00] at hchain
              exact Option.noConfusion hchain
            | pipeline dd0 =>
              rw [hl00] at hchain
              dsimp only at hchain
              have h3 := Option.some.inj hchain
              rw [← h3]
              exact checkFor_ok_stale hcf0 dd0 hl00
      cases f2 with
      | zero => exact Res.noConfusion hcf'
      | succ k =>
        have hno := checkFor_noop k hclean
        rw [hno] at hcf'
        injection hcf' with ha hb
        rw [hs2, ← hb]
        exact calcCount_producerAccessed s1 n

/-- Witness for the amended C7: on the S2 graph, an identity write after the
first read is a state no-op, and re-reading node 2 right after the first read
performs zero `calculate()` invocations. -/
theorem claim_C7_amended_second_read_zero_calcs_witness :
    step (Call.setValue 0 0) 11 c7s1 = Res.ok () c7s1 ∧
    (stateOf (step (Call.getValue 2) 40 c7s1) c7s1).calcCount = c7s1.calcCount :=
  ⟨claim_C7_amended_second_read_zero_calcs.1 c7s1 0 0 ⟨[some (2, 2)], 1, 0⟩ 10 rfl rfl,
   claim_C7_amended_second_read_zero_calcs.2 (buildGraph c7g) c7s1
     (stateOf (step (Call.getValue 2) 40 c7s1) c7s1) 2 0 0 40 40 rfl rfl⟩

theorem lookupNode_recomputeMid_ne (s : EngineState) (i j : Nat) (h : j ≠ i) :
    lookupNode (recomputeMid s i) j = lookupNode s j := by
  unfold recomputeMid
  rw [show lookupNode { modifyPipeline s i (fun d => { d with cached := CachedVal.computing, trackingVersion := d.trackingVersion + 1 }) with activeConsumer := some i, calcCount := s.calcCount + 1 } j = lookupNode (modifyPipeline s i (fun d => { d with cached := CachedVal.computing, trackingVersion := d.trackingVersion + 1 })) j from rfl]
  exact lookupNode_modifyPipeline_ne s i j _ h

/-- Re-entering `recomputeValue` while the node is `COMPUTING` throws the
circularity error, leaving the state untouched. -/
theorem recompute_computing {s : EngineState} {i fuel : Nat} {d : PipelineData}
    (hl : lookupNode s i = some (Node.pipeline d)) (hc : d.cached = CachedVal.computing) :
    step (Call.recomputeValue i) (fuel + 1) s = Res.err EngErr.circular s := by
  simp only [step]
  rw [hl]
  dsimp only
  rw [if_pos hc]

/-- `checkForActuallyChangedValue` on a stale node whose cache holds a
sentinel goes straight to `recomputeValue` (the polling guard requires a real
cached value). -/
theorem checkFor_forward_recompute {s : EngineState} {i fuel : Nat} {d : PipelineData}
    (hl : lookupNode s i = some (Node.pipeline d)) (hst : d.stale ≠ StaleFlag.clean)
    (hcu : d.cached = CachedVal.unset ∨ d.cached = CachedVal.computing) :
    step (Call.checkForActuallyChangedValue i) (fuel + 1) s =
      step (Call.recomputeValue i) fuel s := by
  simp only [step]
  rw [hl]
  dsimp only
  cases hs0 : d.stale with
  | clean => exact absurd hs0 hst
  | dirty =>
    rcases hcu with hcu | hcu
    · rw [hcu]
    · rw [hcu]
  | producer q =>
    rcases hcu with hcu | hcu
    · rw [hcu]
    · rw [hcu]

/-- A failing `calculate()` makes `recomputeValue` fail with the same error,
after restoring the ambient active consumer. -/
theorem recompute_err_forward {s s3 : EngineState} {i fuel : Nat} {d : PipelineData}
    {e : EngErr}
    (hl : lookupNode s i = some (Node.pipeline d)) (hcomp : d.cached ≠ CachedVal.computing)
    (hrun : step (Call.runCalcSteps d.calcFn.steps []) fuel (recomputeMid s i) = Res.err e s3) :
    step (Call.recomputeValue i) (fuel + 1) s =
      Res.err e { s3 with activeConsumer := s.activeConsumer } := by
  simp only [step]
  rw [hl]
  dsimp only
  rw [if_neg hcomp, hrun]

/-- A failing `checkForActuallyChangedValue` makes the read fail identically. -/
theorem getValue_err_forward {s s1 : EngineState} {n fuel : Nat} {d : PipelineData} {e : EngErr}
    (hl : lookupNode s n = some (Node.pipeline d))
    (hcf : step (Call.checkForActuallyChangedValue n) fuel s = Res.err e s1) :
    step (Call.getValue n) (fuel + 1) s = Res.err e s1 := by
  simp only [step]
  rw [hl]
  dsimp only
  rw [hcf]

/-- A failing read inside a calculate body fails the whole body. -/
theorem runCalc_read_err {s s1 : EngineState} {n fuel : Nat} {e : EngErr}
    (rest : List CalcStep) (acc : List Nat)
    (h : step (Call.getValue n) fuel s = Res.err e s1) :
    step (Call.runCalcSteps (CalcStep.readStep n :: rest) acc) (fuel + 1) s = Res.err e s1 := by
  simp only [step]
  rw [h]

theorem producerAccessed_none {s : EngineState} (i : Nat) (h : s.activeConsumer = none) :
    producerAccessed s i = s := by
  unfold producerAccessed
  rw [h]

/-- Reading a leaf at a quiescent point returns its stored value and does not
change the state. -/
theorem leaf_read_quiescent {s : EngineState} {ℓ : Nat} {dv : ValueData} (fuel : Nat)
    (hl : lookupNode s ℓ = some (Node.value dv)) (hac : s.activeConsumer = none) :
    step (Call.getValue ℓ) (fuel + 1) s = Res.ok dv.value s := by
  simp only [step]
  rw [hl]
  dsimp only
  rw [producerAccessed_none ℓ hac]

/-- C2: reading either of two mutually dependent fresh computed nodes fails
with the circularity error (`'Pipeline is circular'`): the outer recompute
marks the node `COMPUTING`, the inner read re-enters its recompute and
throws.  The ambient consumer is restored on unwinding, and afterwards every
`ValuePipeline` leaf in the graph can still be read and returns its current
value, with the state left untouched by the leaf read. -/
theorem claim_C2_cycle_error_leaves_leaves_readable
    (s : EngineState) (a b fuel : Nat)
    (ca pa : LMap Nat Nat) (va ta : Nat) (f : List Nat → Nat)
    (cb pb : LMap Nat Nat) (vb tb : Nat) (g : List Nat → Nat)
    (hs : s.activeConsumer = none) (hab : a ≠ b)
    (hla : lookupNode s a = some (Node.pipeline
      ⟨ca, pa, va, ta, StaleFlag.dirty, CachedVal.unset, ⟨[CalcStep.readStep b], f⟩⟩))
    (hlb : lookupNode s b = some (Node.pipeline
      ⟨cb, pb, vb, tb, StaleFlag.dirty, CachedVal.unset, ⟨[CalcStep.readStep a], g⟩⟩)) :
    step (Call.getValue a) (fuel + 11) s =
      Res.err EngErr.circular { recomputeMid (recomputeMid s a) b with activeConsumer := none } ∧
    ∀ (l : Nat) (dv : ValueData), lookupNode s l = some (Node.value dv) →
      lookupNode { recomputeMid (recomputeMid s a) b with activeConsumer := none } l =
        some (Node.value dv) ∧
      ∀ f2, step (Call.getValue l) (f2 + 1)
          { recomputeMid (recomputeMid s a) b with activeConsumer := none } =
        Res.ok dv.value { recomputeMid (recomputeMid s a) b with activeConsumer := none } := by
  have hla1 : lookupNode (recomputeMid s a) a = some (Node.pipeline
      ⟨ca, pa, va, ta + 1, StaleFlag.dirty, CachedVal.computing, ⟨[CalcStep.readStep b], f⟩⟩) :=
    lookupNode_recomputeMid_self hla
  have hlb1 : lookupNode (recomputeMid s a) b = some (Node.pipeline
      ⟨cb, pb, vb, tb, StaleFlag.dirty, CachedVal.unset, ⟨[CalcStep.readStep a], g⟩⟩) := by
    rw [lookupNode_recomputeMid_ne s a b (Ne.symm hab)]
    exact hlb
  have hlb2 : lookupNode (recomputeMid (recomputeMid s a) b) b = some (Node.pipeline
      ⟨cb, pb, vb, tb + 1, StaleFlag.dirty, CachedVal.computing, ⟨[CalcStep.readStep a], g⟩⟩) :=
    lookupNode_recomputeMid_self hlb1
  have hla2 : lookupNode (recomputeMid (recomputeMid s a) b) a = some (Node.pipeline
      ⟨ca, pa, va, ta + 1, StaleFlag.dirty, CachedVal.computing, ⟨[CalcStep.readStep b], f⟩⟩) := by
    rw [lookupNode_recomputeMid_ne (recomputeMid s a) b a hab]
    exact hla1
  have e1 : step (Call.recomputeValue a) (fuel + 1) (recomputeMid (recomputeMid s a) b) =
      Res.err EngErr.circular (recomputeMid (recomputeMid s a) b) :=
    recompute_computing hla2 rfl
  have e2 : step (Call.checkForActuallyChangedValue a) (fuel + 2) (recomputeMid (recomputeMid s a) b) =
      Res.err EngErr.circular (recomputeMid (recomputeMid s a) b) := by
    rw [checkFor_forward_recompute hla2 (fun h => StaleFlag.noConfusion h) (Or.inr rfl)]
    exact e1
  have e3 : step (Call.getValue a) (fuel + 3) (recomputeMid (recomputeMid s a) b) =
      Res.err EngErr.circular (recomputeMid (recomputeMid s a) b) :=
    getValue_err_forward hla2 e2
  have e4 : step (Call.runCalcSteps [CalcStep.readStep a] []) (fuel + 4)
      (recomputeMid (recomputeMid s a) b) =
      Res.err EngErr.circular (recomputeMid (recomputeMid s a) b) :=
    runCalc_read_err [] [] e3
  have e5 : step (Call.recomputeValue b) (fuel + 5) (recomputeMid s a) =
      Res.err EngErr.circular
        { recomputeMid (recomputeMid s a) b with activeConsumer := (recomputeMid s a).activeConsumer } :=
    recompute_err_forward hlb1 (fun h => CachedVal.noConfusion h) e4
  have e6 : step (Call.checkForActuallyChangedValue b) (fuel + 6) (recomputeMid s a) =
      Res.err EngErr.circular
        { recomputeMid (recomputeMid s a) b with activeConsumer := (recomputeMid s a).activeConsumer } := by
    rw [checkFor_forward_recompute hlb1 (fun h => StaleFlag.noConfusion h) (Or.inl rfl)]
    exact e5
  have e7 : step (Call.getValue b) (fuel + 7) (recomputeMid s a) =
      Res.err EngErr.circular
        { recomputeMid (recomputeMid s a) b with activeConsumer := (recomputeMid s a).activeConsumer } :=
    getValue_err_forward hlb1 e6
  have e8 : step (Call.runCalcSteps [CalcStep.readStep b] []) (fuel + 8) (recomputeMid s a) =
      Res.err EngErr.circular
        { recomputeMid (recomputeMid s a) b with activeConsumer := (recomputeMid s a).activeConsumer } :=
    runCalc_read_err [] [] e7
  have e9 : step (Call.recomputeValue a) (fuel + 9) s =
      Res.err EngErr.circular
        { { recomputeMid (recomputeMid s a) b with activeConsumer := (recomputeMid s a).activeConsumer }
          with activeConsumer := s.activeConsumer } :=
    recompute_err_forward hla (fun h => CachedVal.noConfusion h) e8
  have e10 : step (Call.checkForActuallyChangedValue a) (fuel + 10) s =
      Res.err EngErr.circular
        { { recomputeMid (recomputeMid s a) b with activeConsumer := (recomputeMid s a).activeConsumer }
          with activeConsumer := s.activeConsumer } := by
    rw [checkFor_forward_recompute hla (fun h => StaleFlag.noConfusion h) (Or.inl rfl)]
    exact e9
  have e11 : step (Call.getValue a) (fuel + 11) s =
      Res.err EngErr.circular
        { { recomputeMid (recomputeMid s a) b with activeConsumer := (recomputeMid s a).activeConsumer }
          with activeConsumer := s.activeConsumer } :=
    getValue_err_forward hla e10
  rw [hs] at e11
  constructor
  · exact e11
  · intro l dv hlv
    have hna : l ≠ a := by
      intro e
      rw [e, hla] at hlv
      exact absurd hlv (by simp)
    have hnb : l ≠ b := by
      intro e
      rw [e, hlb] at hlv
      exact absurd hlv (by simp)
    have hlv2 : lookupNode { recomputeMid (recomputeMid s a) b with activeConsumer := none } l =
        some (Node.value dv) := by
      show lookupNode (recomputeMid (recomputeMid s a) b) l = some (Node.value dv)
      rw [lookupNode_recomputeMid_ne (recomputeMid s a) b l hnb,
        lookupNode_recomputeMid_ne s a l hna]
      exact hlv
    exact ⟨hlv2, fun f2 => leaf_read_quiescent f2 hlv2 rfl⟩

/-- Witness for C2 on `c2s`: reading node 0 fails with the circularity error
and the leaf (node 2) still reads as 7 afterwards. -/
theorem claim_C2_cycle_error_leaves_leaves_readable_witness :
    step (Call.getValue 0) 11 c2s =
      Res.err EngErr.circular { recomputeMid (recomputeMid c2s 0) 1 with activeConsumer := none } ∧
    ∀ (l : Nat) (dv : ValueData), lookupNode c2s l = some (Node.value dv) →
      lookupNode { recomputeMid (recomputeMid c2s 0) 1 with activeConsumer := none } l =
        some (Node.value dv) ∧
      ∀ f2, step (Call.getValue l) (f2 + 1)
          { recomputeMid (recomputeMid c2s 0) 1 with activeConsumer := none } =
        Res.ok dv.value { recomputeMid (recomputeMid c2s 0) 1 with activeConsumer := none } :=
  claim_C2_cycle_error_leaves_leaves_readable c2s 0 1 0
    [] [] 1 1 sumMod2 [] [] 1 1 sumMod2 rfl (by decide) rfl rfl

theorem denoteF_congr_skeleton {s s1 : EngineState}
    (h : ∀ j, nodeShape (lookupNode s1 j) = nodeShape (lookupNode s j)) :
    ∀ (fu i : Nat), denoteF s1 fu i = denoteF s fu i := by
  intro fu
  induction fu with
  | zero => intro i; rfl
  | succ fu ih =>
    intro i
    have hi := h i
    cases hl : lookupNode s i with
    | none =>
      rw [hl] at hi
      cases hl1 : lookupNode s1 i with
      | none =>
        show denoteF s1 (fu + 1) i = denoteF s (fu + 1) i
        unfold denoteF
        rw [hl, hl1]
      | some n1 =>
        rw [hl1] at hi
        cases n1 with
        | value d1 => exact absurd hi (by simp [nodeShape])
        | pipeline d1 => exact absurd hi (by simp [nodeShape])
    | some n0 =>
      cases n0 with
      | value d0 =>
        rw [hl] at hi
        cases hl1 : lookupNode s1 i with
        | none => rw [hl1] at hi; exact absurd hi (by simp [nodeShape])
        | some n1 =>
          rw [hl1] at hi
          cases n1 with
          | pipeline d1 => exact absurd hi (by simp [nodeShape])
          | value d1 =>
            have hv : d1.value = d0.value := by
              simp only [nodeShape] at hi
              exact Sum.inl.inj (Option.some.inj hi)
            show denoteF s1 (fu + 1) i = denoteF s (fu + 1) i
            unfold denoteF
            rw [hl, hl1]
            exact hv
      | pipeline d0 =>
        rw [hl] at hi
        cases hl1 : lookupNode s1 i with
        | none => rw [hl1] at hi; exact absurd hi (by simp [nodeShape])
        | some n1 =>
          rw [hl1] at hi
          cases n1 with
          | value d1 => exact absurd hi (by simp [nodeShape])
          | pipeline d1 =>
            have hv : d1.calcFn = d0.calcFn := by
              simp only [nodeShape] at hi
              exact Sum.inr.inj (Option.some.inj hi)
            show denoteF s1 (fu + 1) i = denoteF s (fu + 1) i
            unfold denoteF
            rw [hl, hl1]
            dsimp only
            rw [hv]
            have hm : (readTargets d0.calcFn.steps).map (denoteF s1 fu) =
                (readTargets d0.calcFn.steps).map (denoteF s fu) := by
              apply List.map_congr_left
              intro x _
              exact ih x
            rw [hm]

theorem denote_congr_skeleton {s s1 : EngineState}
    (h : ∀ j, nodeShape (lookupNode s1 j) = nodeShape (lookupNode s j)) (i : Nat) :
    denote s1 i = denote s i :=
  denoteF_congr_skeleton h (i + 1) i

theorem nodeShape_congr {s s1 : EngineState} {j : Nat}
    (h : lookupNode s1 j = lookupNode s j) :
    nodeShape (lookupNode s1 j) = nodeShape (lookupNode s j) := by
  rw [h]

theorem nodeShape_modifyPipeline {s : EngineState} {i : Nat} (f : PipelineData → PipelineData)
    (h : ∀ d, (f d).calcFn = d.calcFn) (j : Nat) :
    nodeShape (lookupNode (modifyPipeline s i f) j) = nodeShape (lookupNode s j) := by
  rcases eq_or_ne j i with rfl | hne
  · cases hl : lookupNode s j with
    | none => rw [modifyPipeline_none f hl, hl]
    | some n =>
      cases n with
      | value d => rw [modifyPipeline_value f hl, hl]
      | pipeline d =>
        rw [lookupNode_modifyPipeline_self s j f d hl]
        simp only [nodeShape]
        rw [h d]
  · exact nodeShape_congr (lookupNode_modifyPipeline_ne s i j f hne)

theorem nodeShape_modifyConsumers {s : EngineState} {i : Nat} (f : LMap Nat Nat → LMap Nat Nat)
    (j : Nat) :
    nodeShape (lookupNode (modifyConsumers s i f) j) = nodeShape (lookupNode s j) := by
  rcases eq_or_ne j i with rfl | hne
  · cases hl : lookupNode s j with
    | none => rw [modifyConsumers_none f hl, hl]
    | some n =>
      cases n with
      | value d =>
        rw [lookupNode_modifyConsumers_value f hl]
        rfl
      | pipeline d =>
        rw [lookupNode_modifyConsumers_pipeline f hl]
        rfl
  · exact nodeShape_congr (lookupNode_modifyConsumers_ne s i j f hne)

theorem nodeShape_producerAccessed (s : EngineState) (i : Nat) (j : Nat) :
    nodeShape (lookupNode (producerAccessed s i) j) = nodeShape (lookupNode s j) := by
  unfold producerAccessed
  cases s.activeConsumer with
  | none => rfl
  | some c =>
    dsimp only
    have h1 : nodeShape (lookupNode (modifyConsumers s i fun m => LMap.set m c (tvOf s c)) j) =
        nodeShape (lookupNode s j) :=
      nodeShape_modifyConsumers (fun m => LMap.set m c (tvOf s c)) j
    have h2 : nodeShape (lookupNode (modifyPipeline (modifyConsumers s i fun m => LMap.set m c (tvOf s c)) c fun d => { d with producers := LMap.set d.producers i (vvOf (modifyConsumers s i fun m => LMap.set m c (tvOf s c)) i) }) j) =
        nodeShape (lookupNode (modifyConsumers s i fun m => LMap.set m c (tvOf s c)) j) :=
      nodeShape_modifyPipeline (fun d => { d with producers := LMap.set d.producers i (vvOf (modifyConsumers s i fun m => LMap.set m c (tvOf s c)) i) }) (fun d => rfl) j
    exact Eq.trans h2 h1

theorem nodeShape_recomputeMid (s : EngineState) (i : Nat) (j : Nat) :
    nodeShape (lookupNode (recomputeMid s i) j) = nodeShape (lookupNode s j) := by
  unfold recomputeMid
  rw [show lookupNode { modifyPipeline s i (fun d => { d with cached := CachedVal.computing, trackingVersion := d.trackingVersion + 1 }) with activeConsumer := some i, calcCount := s.calcCount + 1 } j = lookupNode (modifyPipeline s i (fun d => { d with cached := CachedVal.computing, trackingVersion := d.trackingVersion + 1 })) j from rfl]
  exact nodeShape_modifyPipeline (fun d => { d with cached := CachedVal.computing, trackingVersion := d.trackingVersion + 1 }) (fun d => rfl) j

theorem nodeShape_none_inv {o : Option Node} (h : nodeShape o = none) : o = none := by
  cases o with
  | none => rfl
  | some n => cases n with
    | value d => exact Option.noConfusion h
    | pipeline d => exact Option.noConfusion h

theorem nodeShape_pipeline_inv {o : Option Node} {fc : CalcFn}
    (h : nodeShape o = some (Sum.inr fc)) :
    ∃ d, o = some (Node.pipeline d) ∧ d.calcFn = fc := by
  cases o with
  | none => exact Option.noConfusion h
  | some n => cases n with
    | value d => exact Sum.noConfusion (Option.some.inj h)
    | pipeline d => exact ⟨d, rfl, Sum.inr.inj (Option.some.inj h)⟩

theorem nodeShape_value_inv {o : Option Node} {v : Nat}
    (h : nodeShape o = some (Sum.inl v)) :
    ∃ d, o = some (Node.value d) ∧ d.value = v := by
  cases o with
  | none => exact Option.noConfusion h
  | some n => cases n with
    | pipeline d => exact Sum.noConfusion (Option.some.inj h)
    | value d => exact ⟨d, rfl, Sum.inl.inj (Option.some.inj h)⟩

theorem cachedOf?_pipeline {s : EngineState} {i : Nat} {d : PipelineData}
    (h : lookupNode s i = some (Node.pipeline d)) : cachedOf? s i = some d.cached := by
  unfold cachedOf?
  rw [h]

theorem staleOf?_pipeline {s : EngineState} {i : Nat} {d : PipelineData}
    (h : lookupNode s i = some (Node.pipeline d)) : staleOf? s i = some d.stale := by
  unfold staleOf?
  rw [h]

theorem cachedOf?_some_inv {s : EngineState} {i : Nat} {c : CachedVal}
    (h : cachedOf? s i = some c) :
    ∃ d, lookupNode s i = some (Node.pipeline d) ∧ d.cached = c := by
  unfold cachedOf? at h
  cases hl : lookupNode s i with
  | none => rw [hl] at h; exact Option.noConfusion h
  | some n => cases n with
    | value d => rw [hl] at h; exact Option.noConfusion h
    | pipeline d =>
      rw [hl] at h
      exact ⟨d, rfl, Option.some.inj h⟩

theorem denoteF_stable {s : EngineState} (hG : GraphShape s) :
    ∀ i k, i < k → denoteF s k i = denote s i := by
  intro i
  induction i using Nat.strong_induction_on with
  | _ i ih =>
    intro k hk
    cases k with
    | zero => exact absurd hk (Nat.not_lt_zero i)
    | succ k =>
      show denoteF s (k + 1) i = denoteF s (i + 1) i
      unfold denoteF
      cases hl : lookupNode s i with
      | none => rfl
      | some n =>
        cases n with
        | value d => rfl
        | pipeline d =>
          dsimp only
          have hmap : ∀ m, i ≤ m →
              (readTargets d.calcFn.steps).map (denoteF s m) =
              (readTargets d.calcFn.steps).map (denote s) := by
            intro m hm
            apply List.map_congr_left
            intro x hx
            have hxi : x < i := ((hG i d hl).2 x hx).1
            exact ih x hxi m (lt_of_lt_of_le hxi hm)
          rw [hmap k (Nat.le_of_lt_succ hk), hmap i (le_refl i)]

theorem denote_pipeline {s : EngineState} {i : Nat} {d : PipelineData} (hG : GraphShape s)
    (h : lookupNode s i = some (Node.pipeline d)) :
    denote s i = d.calcFn.combine ((readTargets d.calcFn.steps).map (denote s)) := by
  show denoteF s (i + 1) i = _
  unfold denoteF
  rw [h]
  dsimp only
  congr 1
  apply List.map_congr_left
  intro x hx
  exact denoteF_stable hG x i ((hG i d h).2 x hx).1

theorem denote_value {s : EngineState} {i : Nat} {d : ValueData}
    (h : lookupNode s i = some (Node.value d)) : denote s i = d.value := by
  show denoteF s (i + 1) i = _
  unfold denoteF
  rw [h]

theorem GraphShape_of_skeleton {s s1 : EngineState}
    (hsk : ∀ j, nodeShape (lookupNode s1 j) = nodeShape (lookupNode s j))
    (hG : GraphShape s) : GraphShape s1 := by
  intro i d1 hl1
  have hi := hsk i
  rw [hl1] at hi
  obtain ⟨d0, hl0, hfc⟩ := nodeShape_pipeline_inv hi.symm
  have h0 := hG i d0 hl0
  rw [hfc] at h0
  refine ⟨h0.1, fun x hx => ⟨(h0.2 x hx).1, ?_⟩⟩
  rw [hsk x]
  exact (h0.2 x hx).2

theorem CacheOK_transport {s s1 : EngineState}
    (hsk : ∀ j, nodeShape (lookupNode s1 j) = nodeShape (lookupNode s j))
    (hcached : ∀ j, cachedOf? s1 j = cachedOf? s j)
    (hstale : ∀ j, staleOf? s1 j = staleOf? s j)
    (hOK : CacheOK s) : CacheOK s1 := by
  intro i d1 hl1
  have hi := hsk i
  rw [hl1] at hi
  obtain ⟨d0, hl0, hfc⟩ := nodeShape_pipeline_inv hi.symm
  have hc : d1.cached = d0.cached := by
    have := (cachedOf?_pipeline hl1).symm.trans ((hcached i).trans (cachedOf?_pipeline hl0))
    exact Option.some.inj this
  have hst : d1.stale = d0.stale := by
    have := (staleOf?_pipeline hl1).symm.trans ((hstale i).trans (staleOf?_pipeline hl0))
    exact Option.some.inj this
  have hd : denote s1 i = denote s i := denote_congr_skeleton hsk i
  rw [hc, hst, hd]
  exact hOK i d0 hl0

theorem CacheOK_update_one {s s1 : EngineState} (i : Nat)
    (hne : ∀ j, j ≠ i → lookupNode s1 j = lookupNode s j)
    (hsk : ∀ j, nodeShape (lookupNode s1 j) = nodeShape (lookupNode s j))
    (hOK : CacheOK s)
    (hi : ∀ d1, lookupNode s1 i = some (Node.pipeline d1) →
      (d1.stale = StaleFlag.clean → d1.cached = CachedVal.val (denote s1 i)) ∧
      (d1.stale ≠ StaleFlag.clean → d1.cached = CachedVal.unset ∨ d1.cached = CachedVal.computing)) :
    CacheOK s1 := by
  intro j d1 hl1
  rcases eq_or_ne j i with rfl | hjne
  · exact hi d1 hl1
  · have hl0 : lookupNode s j = some (Node.pipeline d1) := (hne j hjne).symm.trans hl1
    have hd : denote s1 j = denote s j := denote_congr_skeleton hsk j
    rw [hd]
    exact hOK j d1 hl0

theorem readPost_rfl {s : EngineState} (h : CacheOK s) : ReadPost s s :=
  ⟨fun _ => Eq.refl _, h, fun _ => Iff.rfl⟩

theorem readPost_trans {s s1 s2 : EngineState} (h1 : ReadPost s s1) (h2 : ReadPost s1 s2) :
    ReadPost s s2 :=
  ⟨fun j => (h2.1 j).trans (h1.1 j), h2.2.1, fun j => (h2.2.2 j).trans (h1.2.2 j)⟩

theorem ReadPre_of_post {s s1 : EngineState} {k : Nat} (h : ReadPost s s1)
    (hp : ReadPre s k) : ReadPre s1 k :=
  ⟨GraphShape_of_skeleton h.1 hp.1, h.2.1,
   fun j hj hc => hp.2.2 j hj ((h.2.2 j).1 hc)⟩

theorem StepsOK_of_post {s s1 : EngineState} {i : Nat} {steps : List CalcStep}
    (h : ReadPost s s1) (hs : StepsOK s i steps) : StepsOK s1 i steps := by
  intro st hm
  obtain ⟨n, h1, h2, h3⟩ := hs st hm
  refine ⟨n, h1, h2, ?_⟩
  rw [h.1 n]
  exact h3

theorem StepsOK_of_graphShape {s : EngineState} {i : Nat} {d : PipelineData}
    (hG : GraphShape s) (hl : lookupNode s i = some (Node.pipeline d)) :
    StepsOK s i d.calcFn.steps := by
  intro st hm
  obtain ⟨n, hn⟩ := (hG i d hl).1 st hm
  have hmem : n ∈ readTargets d.calcFn.steps := by
    unfold readTargets
    exact List.mem_filterMap.2 ⟨st, hm, by rw [hn]⟩
  exact ⟨n, hn, ((hG i d hl).2 n hmem).1, ((hG i d hl).2 n hmem).2⟩

theorem ReadPost_producerAccessed (s : EngineState) (i : Nat) (h : CacheOK s) :
    ReadPost s (producerAccessed s i) :=
  ⟨nodeShape_producerAccessed s i,
   CacheOK_transport (nodeShape_producerAccessed s i) (cachedOf?_producerAccessed s i)
     (staleOf?_producerAccessed s i) h,
   fun j => by rw [cachedOf?_producerAccessed s i j]⟩

theorem nodeShape_setStaleClean (s : EngineState) (i : Nat) (j : Nat) :
    nodeShape (lookupNode (setStaleClean s i) j) = nodeShape (lookupNode s j) := by
  unfold setStaleClean
  exact nodeShape_modifyPipeline (fun d => { d with stale := StaleFlag.clean }) (fun d => rfl) j

theorem nodeShape_setCached (s : EngineState) (i : Nat) (c : CachedVal) (j : Nat) :
    nodeShape (lookupNode (setCached s i c) j) = nodeShape (lookupNode s j) := by
  unfold setCached
  exact nodeShape_modifyPipeline (fun d => { d with cached := c }) (fun d => rfl) j

theorem nodeShape_bumpVV (s : EngineState) (i : Nat) (j : Nat) :
    nodeShape (lookupNode (bumpVV s i) j) = nodeShape (lookupNode s j) := by
  unfold bumpVV
  exact nodeShape_modifyPipeline (fun d => { d with valueVersion := d.valueVersion + 1 }) (fun d => rfl) j

theorem lookupNode_setStaleClean_ne (s : EngineState) (i j : Nat) (h : j ≠ i) :
    lookupNode (setStaleClean s i) j = lookupNode s j := by
  unfold setStaleClean
  exact lookupNode_modifyPipeline_ne s i j _ h

theorem lookupNode_setCached_ne (s : EngineState) (i : Nat) (c : CachedVal) (j : Nat) (h : j ≠ i) :
    lookupNode (setCached s i c) j = lookupNode s j := by
  unfold setCached
  exact lookupNode_modifyPipeline_ne s i j _ h

theorem lookupNode_bumpVV_ne (s : EngineState) (i j : Nat) (h : j ≠ i) :
    lookupNode (bumpVV s i) j = lookupNode s j := by
  unfold bumpVV
  exact lookupNode_modifyPipeline_ne s i j _ h

theorem lookupNode_ac_irrel (s : EngineState) (a : Option Nat) (j : Nat) :
    lookupNode { s with activeConsumer := a } j = lookupNode s j := rfl

/-- Final-state assembly of a successful recomputation: starting from a
consistent state `s` with node `i` uncached, given the state `s3` left by the
calculate steps (same shapes, consistent caches, node `i` still a pipeline)
and the freshly combined value `w` equal to the denotation, the write-back
(`stale := false`, cache the value, bump `valueVersion`) restores the read
postcondition and caches exactly the denotational value. -/
theorem recompute_finalize {s s3 : EngineState} {i : Nat} {d d3 : PipelineData} {w : Nat}
    (hl : lookupNode s i = some (Node.pipeline d))
    (hunset : d.cached = CachedVal.unset)
    (hOK3 : CacheOK s3)
    (hsk3 : ∀ j, nodeShape (lookupNode s3 j) = nodeShape (lookupNode s j))
    (hiff3 : ∀ j, j ≠ i →
      (cachedOf? s3 j = some CachedVal.computing ↔ cachedOf? s j = some CachedVal.computing))
    (hl3 : lookupNode s3 i = some (Node.pipeline d3))
    (hw : w = denote s i) :
    ReadPost s (bumpVV (setCached (setStaleClean { s3 with activeConsumer := s.activeConsumer } i) i (CachedVal.val w)) i) ∧
    cachedOf? (bumpVV (setCached (setStaleClean { s3 with activeConsumer := s.activeConsumer } i) i (CachedVal.val w)) i) i = some (CachedVal.val (denote s i)) := by
  have hl4 : lookupNode { s3 with activeConsumer := s.activeConsumer } i = some (Node.pipeline d3) := hl3
  have hlfin := lookupNode_bumpVV_self (@lookupNode_setCached_self _ _ (CachedVal.val w) _ (lookupNode_setStaleClean_self hl4))
  have hskfin3 : ∀ j, nodeShape (lookupNode (bumpVV (setCached (setStaleClean { s3 with activeConsumer := s.activeConsumer } i) i (CachedVal.val w)) i) j) = nodeShape (lookupNode s3 j) := by
    intro j
    exact (nodeShape_bumpVV _ i j).trans ((nodeShape_setCached _ i _ j).trans (nodeShape_setStaleClean _ i j))
  have hskfin : ∀ j, nodeShape (lookupNode (bumpVV (setCached (setStaleClean { s3 with activeConsumer := s.activeConsumer } i) i (CachedVal.val w)) i) j) = nodeShape (lookupNode s j) :=
    fun j => (hskfin3 j).trans (hsk3 j)
  have hlfin_ne : ∀ j, j ≠ i → lookupNode (bumpVV (setCached (setStaleClean { s3 with activeConsumer := s.activeConsumer } i) i (CachedVal.val w)) i) j = lookupNode s3 j := by
    intro j hj
    rw [lookupNode_bumpVV_ne _ i j hj, lookupNode_setCached_ne _ i _ j hj,
      lookupNode_setStaleClean_ne _ i j hj]
    rfl
  refine ⟨⟨hskfin, ?_, ?_⟩, ?_⟩
  · refine CacheOK_update_one i hlfin_ne hskfin3 hOK3 ?_
    intro d1 hd1
    rw [hlfin] at hd1
    obtain rfl := Node.pipeline.inj (Option.some.inj hd1)
    constructor
    · intro _
      exact congrArg CachedVal.val (hw.trans (denote_congr_skeleton hskfin i).symm)
    · intro hne2
      exact absurd rfl hne2
  · intro j
    rcases eq_or_ne j i with rfl | hj
    · constructor
      · intro hcontra
        rw [cachedOf?_pipeline hlfin] at hcontra
        exact CachedVal.noConfusion (Option.some.inj hcontra)
      · intro hcontra
        rw [cachedOf?_pipeline hl] at hcontra
        rw [hunset] at hcontra
        exact CachedVal.noConfusion (Option.some.inj hcontra)
    · have e1 : cachedOf? (bumpVV (setCached (setStaleClean { s3 with activeConsumer := s.activeConsumer } i) i (CachedVal.val w)) i) j = cachedOf? s3 j :=
        cachedOf?_congr (hlfin_ne j hj)
      rw [e1]
      exact hiff3 j hj
  · rw [cachedOf?_pipeline hlfin]
    exact congrArg some (congrArg CachedVal.val hw)

/-- The fresh-read induction: starting from a well-shaped state with
consistent caches and no recomputation in flight below the bound, a read and
each of its constituent calls either runs out of fuel, or succeeds returning
exactly the denotational value, preserving shapes, cache consistency and the
set of `COMPUTING` nodes; no error is ever produced. -/
theorem freshRead : ∀ fuel : Nat,
    (∀ s i, ReadPre s (i + 1) → nodeShape (lookupNode s i) ≠ none →
      match step (Call.getValue i) fuel s with
      | Res.ok v s1 => v = denote s i ∧ ReadPost s s1
      | Res.err _ _ => False
      | Res.out => True) ∧
    (∀ s i d, ReadPre s (i + 1) → lookupNode s i = some (Node.pipeline d) →
      match step (Call.checkForActuallyChangedValue i) fuel s with
      | Res.ok _ s1 => ReadPost s s1 ∧ cachedOf? s1 i = some (CachedVal.val (denote s i))
      | Res.err _ _ => False
      | Res.out => True) ∧
    (∀ s i d, ReadPre s (i + 1) → lookupNode s i = some (Node.pipeline d) →
      d.cached = CachedVal.unset → d.stale ≠ StaleFlag.clean →
      match step (Call.recomputeValue i) fuel s with
      | Res.ok _ s1 => ReadPost s s1 ∧ cachedOf? s1 i = some (CachedVal.val (denote s i))
      | Res.err _ _ => False
      | Res.out => True) ∧
    (∀ s i steps acc, ReadPre s i → StepsOK s i steps →
      match step (Call.runCalcSteps steps acc) fuel s with
      | Res.ok vals s1 => vals = acc ++ (readTargets steps).map (denote s) ∧ ReadPost s s1
      | Res.err _ _ => False
      | Res.out => True) := by
  intro fuel
  induction fuel with
  | zero =>
    refine ⟨fun s i h1 h2 => ?_, fun s i d h1 h2 => ?_, fun s i d h1 h2 h3 h4 => ?_,
      fun s i steps acc h1 h2 => ?_⟩ <;> simp only [step]
  | succ fuel ih =>
    obtain ⟨ihG, ihC, ihR, ihS⟩ := ih
    refine ⟨?_, ?_, ?_, ?_⟩
    -- getValue
    · intro s i hpre hnode
      simp only [step]
      cases hl : lookupNode s i with
      | none => exact absurd (show nodeShape (lookupNode s i) = none by rw [hl]; rfl) hnode
      | some nd =>
        cases nd with
        | value d =>
          dsimp only
          exact ⟨(denote_value hl).symm, ReadPost_producerAccessed s i hpre.2.1⟩
        | pipeline d =>
          dsimp only
          have hc := ihC s i d hpre hl
          cases hcf : step (Call.checkForActuallyChangedValue i) fuel s with
          | out => trivial
          | err e s1 =>
            rw [hcf] at hc
            exact hc.elim
          | ok u s1 =>
            rw [hcf] at hc
            dsimp only at hc
            have hc2 : cachedOf? (producerAccessed s1 i) i = some (CachedVal.val (denote s i)) :=
              (cachedOf?_producerAccessed s1 i i).trans hc.2
            dsimp only
            rw [hc2]
            dsimp only
            exact ⟨rfl, readPost_trans hc.1 (ReadPost_producerAccessed s1 i hc.1.2.1)⟩
    -- checkForActuallyChangedValue
    · intro s i d hpre hl
      simp only [step]
      rw [hl]
      dsimp only
      cases hst : d.stale with
      | clean =>
        dsimp only
        refine ⟨readPost_rfl hpre.2.1, ?_⟩
        rw [cachedOf?_pipeline hl, (hpre.2.1 i d hl).1 hst]
      | dirty =>
        have hstne : d.stale ≠ StaleFlag.clean := by
          rw [hst]
          exact fun h => StaleFlag.noConfusion h
        have hunset : d.cached = CachedVal.unset := by
          rcases (hpre.2.1 i d hl).2 hstne with h | h
          · exact h
          · exact absurd ((cachedOf?_pipeline hl).trans (congrArg some h))
              (hpre.2.2 i (Nat.lt_succ_self i))
        dsimp only
        rw [hunset]
        dsimp only
        have hr := ihR s i d hpre hl hunset hstne
        cases hrec : step (Call.recomputeValue i) fuel s with
        | out => trivial
        | err e s1 =>
          rw [hrec] at hr
          exact hr.elim
        | ok u s1 =>
          rw [hrec] at hr
          exact hr
      | producer p =>
        have hstne : d.stale ≠ StaleFlag.clean := by
          rw [hst]
          exact fun h => StaleFlag.noConfusion h
        have hunset : d.cached = CachedVal.unset := by
          rcases (hpre.2.1 i d hl).2 hstne with h | h
          · exact h
          · exact absurd ((cachedOf?_pipeline hl).trans (congrArg some h))
              (hpre.2.2 i (Nat.lt_succ_self i))
        dsimp only
        rw [hunset]
        dsimp only
        have hr := ihR s i d hpre hl hunset hstne
        cases hrec : step (Call.recomputeValue i) fuel s with
        | out => trivial
        | err e s1 =>
          rw [hrec] at hr
          exact hr.elim
        | ok u s1 =>
          rw [hrec] at hr
          exact hr
    -- recomputeValue
    · intro s i d hpre hl hunset hstne
      simp only [step]
      rw [hl]
      dsimp only
      rw [if_neg (show ¬d.cached = CachedVal.computing from by
        rw [hunset]; exact fun h => CachedVal.noConfusion h)]
      have hskmid : ∀ j, nodeShape (lookupNode (recomputeMid s i) j) = nodeShape (lookupNode s j) :=
        nodeShape_recomputeMid s i
      have hpremid : ReadPre (recomputeMid s i) i := by
        refine ⟨GraphShape_of_skeleton hskmid hpre.1, ?_, ?_⟩
        · refine CacheOK_update_one i (fun j hj => lookupNode_recomputeMid_ne s i j hj) hskmid hpre.2.1 ?_
          intro d1 hd1
          rw [lookupNode_recomputeMid_self hl] at hd1
          obtain rfl := Node.pipeline.inj (Option.some.inj hd1)
          constructor
          · intro hcl
            exact absurd hcl hstne
          · intro _
            exact Or.inr rfl
        · intro j hj
          rw [cachedOf?_recomputeMid_ne s i j (Nat.ne_of_lt hj)]
          exact hpre.2.2 j (Nat.lt_succ_of_lt hj)
      have hstepsmid : StepsOK (recomputeMid s i) i d.calcFn.steps := by
        intro st hm
        obtain ⟨n, h1, h2, h3⟩ := StepsOK_of_graphShape hpre.1 hl st hm
        refine ⟨n, h1, h2, ?_⟩
        rw [hskmid n]
        exact h3
      have hrun := ihS (recomputeMid s i) i d.calcFn.steps [] hpremid hstepsmid
      cases hrc : step (Call.runCalcSteps d.calcFn.steps []) fuel (recomputeMid s i) with
      | out => trivial
      | err e s3 =>
        rw [hrc] at hrun
        exact hrun.elim
      | ok vals s3 =>
        rw [hrc] at hrun
        dsimp only at hrun
        obtain ⟨hvals0, hpost3⟩ := hrun
        dsimp only
        rw [if_neg (show ¬d.cached = CachedVal.val (d.calcFn.combine vals) from by
          rw [hunset]; exact fun h => CachedVal.noConfusion h)]
        dsimp only
        have hvals : vals = (readTargets d.calcFn.steps).map (denote s) := by
          rw [hvals0, List.nil_append]
          apply List.map_congr_left
          intro x hx
          exact denote_congr_skeleton hskmid x
        have hnew : d.calcFn.combine vals = denote s i := by
          rw [hvals]
          exact (denote_pipeline hpre.1 hl).symm
        have hcomp3 : cachedOf? s3 i = some CachedVal.computing :=
          (hpost3.2.2 i).2 (cachedOf?_recomputeMid_self hl)
        obtain ⟨d3, hl3, hd3c⟩ := cachedOf?_some_inv hcomp3
        have hsk3 : ∀ j, nodeShape (lookupNode s3 j) = nodeShape (lookupNode s j) :=
          fun j => (hpost3.1 j).trans (hskmid j)
        have hiff3 : ∀ j, j ≠ i →
            (cachedOf? s3 j = some CachedVal.computing ↔ cachedOf? s j = some CachedVal.computing) := by
          intro j hj
          rw [← cachedOf?_recomputeMid_ne s i j hj]
          exact hpost3.2.2 j
        exact recompute_finalize hl hunset hpost3.2.1 hsk3 hiff3 hl3 hnew
    -- runCalcSteps
    · intro s i steps acc hpre hsteps
      cases steps with
      | nil =>
        simp only [step]
        exact ⟨(List.append_nil acc).symm, readPost_rfl hpre.2.1⟩
      | cons st rest =>
        obtain ⟨n, hstn, hni, hnode⟩ := hsteps st (List.mem_cons_self st rest)
        subst hstn
        simp only [step]
        have hpre_n : ReadPre s (n + 1) :=
          ⟨hpre.1, hpre.2.1, fun j hj => hpre.2.2 j (Nat.lt_of_le_of_lt (Nat.le_of_lt_succ hj) hni)⟩
        have hget := ihG s n hpre_n hnode
        cases hg : step (Call.getValue n) fuel s with
        | out => trivial
        | err e s1 =>
          rw [hg] at hget
          exact hget.elim
        | ok v s1 =>
          rw [hg] at hget
          dsimp only at hget
          obtain ⟨hv, hpost1⟩ := hget
          dsimp only
          have hpre1 : ReadPre s1 i := ReadPre_of_post hpost1 hpre
          have hsteps1 : StepsOK s1 i rest :=
            StepsOK_of_post hpost1 (fun st2 hm2 => hsteps st2 (List.mem_cons_of_mem _ hm2))
          have hrun := ihS s1 i rest (acc ++ [v]) hpre1 hsteps1
          cases hr2 : step (Call.runCalcSteps rest (acc ++ [v])) fuel s1 with
          | out => trivial
          | err e s2 =>
            rw [hr2] at hrun
            exact hrun.elim
          | ok vals s2 =>
            rw [hr2] at hrun
            dsimp only at hrun
            refine ⟨?_, readPost_trans hpost1 hrun.2⟩
            rw [hrun.1, hv]
            have hm1 : (readTargets rest).map (denote s1) = (readTargets rest).map (denote s) :=
              List.map_congr_left (fun x _ => denote_congr_skeleton hpost1.1 x)
            rw [hm1]
            rw [show readTargets (CalcStep.readStep n :: rest) = n :: readTargets rest from rfl]
            simp only [List.map_cons, List.append_assoc, List.singleton_append]

theorem freshRead_getValue {s s1 : EngineState} {i fuel v : Nat}
    (hpre : ReadPre s (i + 1)) (hnode : nodeShape (lookupNode s i) ≠ none)
    (hr : step (Call.getValue i) fuel s = Res.ok v s1) : v = denote s i := by
  have h := (freshRead fuel).1 s i hpre hnode
  rw [hr] at h
  exact h.1

theorem lookupNode_buildGraph (G : List GNode) (i : Nat) :
    lookupNode (buildGraph G) i = (G.get? i).map buildNode := by
  unfold lookupNode buildGraph
  exact List.get?_map buildNode G i

theorem readTargets_map_readStep (deps : List Nat) :
    readTargets (deps.map CalcStep.readStep) = deps := by
  induction deps with
  | nil => rfl
  | cons x rest ih =>
    unfold readTargets at ih ⊢
    simp only [List.map_cons, List.filterMap_cons]
    rw [ih]

theorem quasiFresh_buildGraph (G : List GNode) : QuasiFresh (buildGraph G) := by
  refine ⟨rfl, ?_, ?_⟩
  · intro i d hl
    rw [lookupNode_buildGraph] at hl
    cases hg : G.get? i with
    | none => rw [hg] at hl; exact Option.noConfusion hl
    | some gn =>
      rw [hg] at hl
      cases gn with
      | leaf v => exact Node.noConfusion (Option.some.inj hl)
      | node deps f =>
        have := Node.pipeline.inj (Option.some.inj hl)
        rw [← this]
        exact ⟨rfl, rfl⟩
  · intro i d hl
    rw [lookupNode_buildGraph] at hl
    cases hg : G.get? i with
    | none => rw [hg] at hl; exact Option.noConfusion hl
    | some gn =>
      rw [hg] at hl
      cases gn with
      | node deps f => exact Node.noConfusion (Option.some.inj hl)
      | leaf v =>
        have := Node.value.inj (Option.some.inj hl)
        rw [← this]

theorem graphShape_buildGraph (G : List GNode) (hwf : GraphWF G) :
    GraphShape (buildGraph G) := by
  intro i d hl
  rw [lookupNode_buildGraph] at hl
  cases hg : G.get? i with
  | none => rw [hg] at hl; exact Option.noConfusion hl
  | some gn =>
    rw [hg] at hl
    cases gn with
    | leaf v => exact Node.noConfusion (Option.some.inj hl)
    | node deps f =>
      obtain rfl := Node.pipeline.inj (Option.some.inj hl)
      constructor
      · intro st hm
        obtain ⟨n, _, hn⟩ := List.mem_map.1 hm
        exact ⟨n, hn.symm⟩
      · intro x hx
        rw [readTargets_map_readStep] at hx
        have hxi : x < i := hwf i deps f hg x hx
        refine ⟨hxi, ?_⟩
        have hilen : i < G.length := by
          by_contra hge
          rw [List.get?_eq_none.2 (Nat.le_of_not_lt hge)] at hg
          exact Option.noConfusion hg
        have hxlen : x < G.length := Nat.lt_trans hxi hilen
        rw [lookupNode_buildGraph]
        cases hgx : G.get? x with
        | none =>
          rw [List.get?_eq_none] at hgx
          exact absurd hgx (Nat.not_le_of_lt hxlen)
        | some gx =>
          cases gx with
          | leaf w => exact fun h => Option.noConfusion h
          | node dx fx => exact fun h => Option.noConfusion h

theorem readPre_of_quasiFresh {s : EngineState} (hq : QuasiFresh s) (hG : GraphShape s)
    (k : Nat) : ReadPre s k := by
  refine ⟨hG, ?_, ?_⟩
  · intro i d hl
    obtain ⟨hst, hca⟩ := hq.2.1 i d hl
    constructor
    · intro hcl
      rw [hst] at hcl
      exact StaleFlag.noConfusion hcl
    · intro _
      exact Or.inl hca
  · intro j _ hc
    obtain ⟨d, hl, hdc⟩ := cachedOf?_some_inv hc
    rw [(hq.2.1 j d hl).2] at hdc
    exact CachedVal.noConfusion hdc

theorem quasiFresh_bumpLeaf {s : EngineState} (h : QuasiFresh s) (n v : Nat) :
    QuasiFresh (bumpLeaf s n v) := by
  refine ⟨Eq.trans (activeConsumer_modifyValue s n _) h.1, ?_, ?_⟩
  · intro i d hl1
    rcases eq_or_ne i n with rfl | hne
    · cases hl : lookupNode s i with
      | none =>
        rw [show bumpLeaf s i v = s from modifyValue_none _ hl] at hl1
        exact h.2.1 i d hl1
      | some nd =>
        cases nd with
        | value d0 =>
          rw [show lookupNode (bumpLeaf s i v) i = some (Node.value _) from
            lookupNode_modifyValue_self s i _ d0 hl] at hl1
          exact Node.noConfusion (Option.some.inj hl1)
        | pipeline d0 =>
          rw [show bumpLeaf s i v = s from modifyValue_pipeline _ hl] at hl1
          exact h.2.1 i d hl1
    · rw [show lookupNode (bumpLeaf s n v) i = lookupNode s i from
        lookupNode_modifyValue_ne s n i _ hne] at hl1
      exact h.2.1 i d hl1
  · intro i d hl1
    rcases eq_or_ne i n with rfl | hne
    · cases hl : lookupNode s i with
      | none =>
        rw [show bumpLeaf s i v = s from modifyValue_none _ hl] at hl1
        exact h.2.2 i d hl1
      | some nd =>
        cases nd with
        | pipeline d0 =>
          rw [show bumpLeaf s i v = s from modifyValue_pipeline _ hl] at hl1
          exact h.2.2 i d hl1
        | value d0 =>
          rw [show lookupNode (bumpLeaf s i v) i = some (Node.value _) from
            lookupNode_modifyValue_self s i _ d0 hl] at hl1
          obtain rfl := Node.value.inj (Option.some.inj hl1)
          exact h.2.2 i d0 hl
    · rw [show lookupNode (bumpLeaf s n v) i = lookupNode s i from
        lookupNode_modifyValue_ne s n i _ hne] at hl1
      exact h.2.2 i d hl1

theorem graphShape_bumpLeaf {s : EngineState} (hG : GraphShape s) (n v : Nat) :
    GraphShape (bumpLeaf s n v) := by
  have hpip : ∀ i d, lookupNode (bumpLeaf s n v) i = some (Node.pipeline d) →
      lookupNode s i = some (Node.pipeline d) := by
    intro i d hl1
    rcases eq_or_ne i n with rfl | hne
    · cases hl : lookupNode s i with
      | none =>
        rw [show bumpLeaf s i v = s from modifyValue_none _ hl, hl] at hl1
        exact hl1
      | some nd =>
        cases nd with
        | value d0 =>
          rw [show lookupNode (bumpLeaf s i v) i = some (Node.value _) from
            lookupNode_modifyValue_self s i _ d0 hl] at hl1
          exact Node.noConfusion (Option.some.inj hl1)
        | pipeline d0 =>
          rw [show bumpLeaf s i v = s from modifyValue_pipeline _ hl, hl] at hl1
          exact hl1
    · rw [show lookupNode (bumpLeaf s n v) i = lookupNode s i from
        lookupNode_modifyValue_ne s n i _ hne] at hl1
      exact hl1
  have hshape : ∀ x, nodeShape (lookupNode s x) ≠ none →
      nodeShape (lookupNode (bumpLeaf s n v) x) ≠ none := by
    intro x hx
    rcases eq_or_ne x n with rfl | hne
    · cases hl : lookupNode s x with
      | none => exact absurd (by rw [hl]; rfl) hx
      | some nd =>
        cases nd with
        | value d0 =>
          rw [show lookupNode (bumpLeaf s x v) x = some (Node.value _) from
            lookupNode_modifyValue_self s x _ d0 hl]
          exact fun h => Option.noConfusion h
        | pipeline d0 =>
          rw [show bumpLeaf s x v = s from modifyValue_pipeline _ hl, hl]
          exact fun h => Option.noConfusion h
    · rw [show lookupNode (bumpLeaf s n v) x = lookupNode s x from
        lookupNode_modifyValue_ne s n x _ hne]
      exact hx
  intro i d hl1
  have hl0 := hpip i d hl1
  refine ⟨(hG i d hl0).1, fun x hx => ⟨((hG i d hl0).2 x hx).1, hshape x ((hG i d hl0).2 x hx).2⟩⟩

theorem pnc_empty (f : Nat) {st : EngineState} {n : Nat} (h : consumersOf st n = []) :
    step (Call.producerNotifyConsumers n) f st = Res.out ∨
    step (Call.producerNotifyConsumers n) f st = Res.ok () st := by
  cases f with
  | zero => exact Or.inl rfl
  | succ f1 =>
    simp only [step]
    rw [h]
    show (step (Call.pncLoop n (LMap.toTuples [])) f1 st = Res.out ∨
      step (Call.pncLoop n (LMap.toTuples [])) f1 st = Res.ok () st)
    cases f1 with
    | zero => exact Or.inl rfl
    | succ f2 =>
      simp only [step]
      exact Or.inr rfl

theorem quasiFresh_set {s : EngineState} (h : QuasiFresh s) (hG : GraphShape s)
    (fuel n v : Nat) :
    QuasiFresh (applyOp fuel s (Op.set n v)) ∧ GraphShape (applyOp fuel s (Op.set n v)) := by
  cases fuel with
  | zero => exact ⟨h, hG⟩
  | succ f =>
    simp only [applyOp, step]
    cases hl : lookupNode s n with
    | none => exact ⟨h, hG⟩
    | some nd =>
      cases nd with
      | pipeline d => exact ⟨h, hG⟩
      | value d =>
        dsimp only
        by_cases hv : v = d.value
        · rw [if_pos hv]
          exact ⟨h, hG⟩
        · rw [if_neg hv]
          have hcons : consumersOf (bumpLeaf s n v) n = [] := by
            unfold consumersOf
            rw [show lookupNode (bumpLeaf s n v) n = some (Node.value _) from
              lookupNode_modifyValue_self s n _ d hl]
            exact h.2.2 n d hl
          rcases pnc_empty f hcons with hout | hok
          · rw [hout]
            exact ⟨h, hG⟩
          · rw [hok]
            exact ⟨quasiFresh_bumpLeaf h n v, graphShape_bumpLeaf hG n v⟩

theorem quasiFresh_applySets (sets : List (Nat × Nat)) (fuel : Nat) :
    ∀ s, QuasiFresh s → GraphShape s →
    QuasiFresh (applySets sets fuel s) ∧ GraphShape (applySets sets fuel s) := by
  induction sets with
  | nil => exact fun s h hG => ⟨h, hG⟩
  | cons p rest ih =>
    intro s h hG
    have h1 := quasiFresh_set h hG fuel p.1 p.2
    exact ih (applyOp fuel s (Op.set p.1 p.2)) h1.1 h1.2

/-- C1: In a benchmark-shaped dependency DAG (`GraphWF`: computed nodes read
only strictly earlier nodes), after any finite sequence of `setValue`
operations applied to the freshly built graph, the lazy engine's
`getValue` on any node returns exactly the value that a from-scratch
evaluation yields: reading the corresponding node of a freshly constructed
copy of the same graph whose leaves hold the current leaf values (`hcopy`:
same node shapes — same calculate bodies, same current leaf values) returns
the same value.  Caching, staleness flags, version counters and dependency
tracking never change an observed value. -/
theorem claim_C1_lazy_read_equals_fresh_rebuild
    (G G2 : List GNode) (sets : List (Nat × Nat)) (n fuel fuel1 fuel2 v1 v2 : Nat)
    (hwf : GraphWF G)
    (hcopy : ∀ j, nodeShape (lookupNode (buildGraph G2) j) =
      nodeShape (lookupNode (applySets sets fuel (buildGraph G)) j))
    (h1 : readVal n fuel1 (applySets sets fuel (buildGraph G)) = some v1)
    (h2 : readVal n fuel2 (buildGraph G2) = some v2) :
    v1 = v2 := by
  obtain ⟨hQF1, hG1⟩ := quasiFresh_applySets sets fuel (buildGraph G)
    (quasiFresh_buildGraph G) (graphShape_buildGraph G hwf)
  have hG2 : GraphShape (buildGraph G2) := GraphShape_of_skeleton hcopy hG1
  have hQF2 : QuasiFresh (buildGraph G2) := quasiFresh_buildGraph G2
  unfold readVal at h1 h2
  have hv1 : v1 = denote (applySets sets fuel (buildGraph G)) n := by
    cases hr : step (Call.getValue n) fuel1 (applySets sets fuel (buildGraph G)) with
    | out => rw [hr] at h1; exact Option.noConfusion h1
    | err e s1 => rw [hr] at h1; exact Option.noConfusion h1
    | ok w s1 =>
      rw [hr] at h1
      obtain rfl : w = v1 := Option.some.inj h1
      have hnode : nodeShape (lookupNode (applySets sets fuel (buildGraph G)) n) ≠ none := by
        rcases getValue_ok_inv hr with ⟨d, hl, _⟩ | ⟨f1, s0, d0, _, hl, _⟩
        · rw [hl]; exact fun h => Option.noConfusion h
        · rw [hl]; exact fun h => Option.noConfusion h
      exact freshRead_getValue (readPre_of_quasiFresh hQF1 hG1 (n + 1)) hnode hr
  have hv2 : v2 = denote (buildGraph G2) n := by
    cases hr : step (Call.getValue n) fuel2 (buildGraph G2) with
    | out => rw [hr] at h2; exact Option.noConfusion h2
    | err e s1 => rw [hr] at h2; exact Option.noConfusion h2
    | ok w s1 =>
      rw [hr] at h2
      obtain rfl : w = v2 := Option.some.inj h2
      have hnode : nodeShape (lookupNode (buildGraph G2) n) ≠ none := by
        rcases getValue_ok_inv hr with ⟨d, hl, _⟩ | ⟨f1, s0, d0, _, hl, _⟩
        · rw [hl]; exact fun h => Option.noConfusion h
        · rw [hl]; exact fun h => Option.noConfusion h
      exact freshRead_getValue (readPre_of_quasiFresh hQF2 hG2 (n + 1)) hnode hr
  rw [hv1, hv2, denote_congr_skeleton hcopy n]

/-- Witness for C1: the two-leaf one-combiner graph, one leaf updated to 1
after construction; the lazy read of the combiner and the read on the fresh
copy with current leaf values both return 1. -/
theorem claim_C1_lazy_read_equals_fresh_rebuild_witness :
    readVal 2 20 (applySets [(0, 1)] 10
      (buildGraph [GNode.leaf 0, GNode.leaf 0, GNode.node [0, 1] sumMod2])) = some 1 ∧
    readVal 2 20 (buildGraph [GNode.leaf 1, GNode.leaf 0, GNode.node [0, 1] sumMod2]) = some 1 ∧
    (1 : Nat) = 1 := by
  refine ⟨rfl, rfl, ?_⟩
  refine claim_C1_lazy_read_equals_fresh_rebuild
    [GNode.leaf 0, GNode.leaf 0, GNode.node [0, 1] sumMod2]
    [GNode.leaf 1, GNode.leaf 0, GNode.node [0, 1] sumMod2]
    [(0, 1)] 2 10 20 20 1 1 ?_ ?_ rfl rfl
  · intro i deps f h x hx
    rcases i with _ | _ | _ | i
    · exact GNode.noConfusion (Option.some.inj h)
    · exact GNode.noConfusion (Option.some.inj h)
    · have h2 := Option.some.inj h
      injection h2 with hd hf
      rw [← hd] at hx
      simp only [List.mem_cons, List.mem_singleton] at hx
      rcases hx with rfl | rfl | hx
      · decide
      · decide
      · exact absurd hx (List.not_mem_nil x)
    · exact Option.noConfusion h
  · intro j
    rcases j with _ | _ | _ | j <;> rfl
